import Mathlib

-- ## Definitions: the shallow embedding of the program

/-- A JSON-ish scalar field value.  The shallow merge never looks inside a
value, so nested objects may be represented by any distinct atom. -/
inductive Val where
  | vstr : String → Val
  | vnum : Rat → Val
  | vbool : Bool → Val
  | vnull : Val
deriving DecidableEq

/-- A JavaScript object's non-id fields: association list in key order. -/
abbrev Obj := List (String × Val)

/-- First-match field lookup, i.e. reading `o[k]` of a JS object (whose keys
are unique; on lists with duplicate keys this reads the binding that JS
would hold). -/
def getField : Obj → String → Option Val
  | [], _ => none
  | (k', v') :: t, k => if k' = k then some v' else getField t k

/-- Single-field assignment `o[k] = v`: overwrite in place if the key is
present, else append the key at the end (JS property-creation order). -/
def setField : Obj → String → Val → Obj
  | [], k, v => [(k, v)]
  | (k', v') :: t, k, v => if k' = k then (k', v) :: t else (k', v') :: setField t k v

/-- JS object spread `{...o, ...n}`: assign every field of `n` into `o`,
left to right. -/
def objMerge (o n : Obj) : Obj :=
  n.foldl (fun a kv => setField a kv.1 kv.2) o

/-- The keys of an object, in order. -/
def keysOf (o : Obj) : List String := o.map Prod.fst

/-- A record of the live state store (a header or a bet): its numeric `id`
plus its remaining fields. -/
structure StoreRec where
  rid : Int
  fields : Obj
deriving DecidableEq

/-- Shallow record merge `{...old, ...new}` of two records with ids. -/
def mergeRec (old new : StoreRec) : StoreRec :=
  { rid := new.rid, fields := objMerge old.fields new.fields }

/-- `headers.find(h => h.id === id)` — the record the store holds for an id. -/
def findRec (s : List StoreRec) (i : Int) : Option StoreRec :=
  s.find? (fun h => h.rid = i)

/-- The body of `LiveStreamService.updateLiveHeaders` / `updateLiveBets` for
one incoming record: `findIndex` by id, then in-place merged assignment or
`push`. -/
def upsertRecord (s : List StoreRec) (r : StoreRec) : List StoreRec :=
  match s.findIdx? (fun h => h.rid = r.rid) with
  | some i => s.set i (mergeRec (s.getD i r) r)
  | none => s ++ [r]

/-- `LiveStreamService.updateLiveHeaders` / `updateLiveBets`: fold the
single-record upsert over the incoming patch, in order. -/
def updateLiveRecords (s : List StoreRec) (patch : List StoreRec) : List StoreRec :=
  patch.foldl upsertRecord s

/-- The ids held by a collection, in store order. -/
def sids (s : List StoreRec) : List Int := s.map StoreRec.rid

/-- JS `??`-like choice on option values: the first defined one wins. -/
def orOpt (a b : Option Val) : Option Val :=
  match a with
  | some v => some v
  | none => b

/-- The value of the LAST binding of a key in a field list (the binding that
survives folding the assignments left to right). -/
def lastVal : Obj → String → Option Val
  | [], _ => none
  | (k', v') :: t, k =>
    match lastVal t k with
    | some v => some v
    | none => if k' = k then some v' else none

/-- The concatenation of the field lists of a run of records. -/
def fieldsConcat : List StoreRec → Obj
  | [] => []
  | r :: t => r.fields ++ fieldsConcat t

/-- Every record of the store keeps its fields free of duplicate keys: this is
exactly the image of genuine JavaScript objects, whose keys are unique. -/
abbrev WfStore (s : List StoreRec) : Prop :=
  ∀ r ∈ s, (keysOf r.fields).Nodup

/-- Characters of a string with whitespace stripped from both ends
(JavaScript `String.prototype.trim`). -/
def trimChars (l : List Char) : List Char :=
  ((l.dropWhile Char.isWhitespace).reverse.dropWhile Char.isWhitespace).reverse

/-- JavaScript `s.trim()`. -/
def jsTrim (s : String) : String := ⟨trimChars s.data⟩

/-- JavaScript string truthiness test: the empty string is falsy. -/
def jsIsEmpty (s : String) : Bool := s.data.isEmpty

/-- Character-list prefix test. -/
def startsWithChars : List Char → List Char → Bool
  | _, [] => true
  | [], _ :: _ => false
  | c :: t, p :: q => c = p && startsWithChars t q

/-- JavaScript `s.startsWith(p)`. -/
def jsStartsWith (s p : String) : Bool := startsWithChars s.data p.data

/-- The aggregate snapshot assembled by `initializeLiveEvents`. -/
structure LiveDataS where
  sports : List StoreRec
  headers : List StoreRec
  bets : List StoreRec
  lastTimestamp : Int
  sport : String
deriving DecidableEq

/-- A successfully JSON-parsed frame: each of the three optional arrays of
the provider payload. -/
structure StreamPayload where
  liveSports : Option (List StoreRec)
  liveHeaders : Option (List StoreRec)
  liveBets : Option (List StoreRec)
deriving DecidableEq

/-- The accumulator of the bulk fetch: the three arrays being built and the
`endTimestamp` variable (`none` both for the initial `null` and for `NaN`,
which the source treats identically — both are falsy). -/
structure IngestAcc where
  liveSports : List StoreRec
  liveHeaders : List StoreRec
  liveBets : List StoreRec
  endTs : Option Int
deriving DecidableEq

/-- `LiveStreamService.processLiveStreamData`: push each present array of the
payload onto the corresponding accumulator array (plain concatenation). -/
def processLiveStreamData (acc : IngestAcc) (d : StreamPayload) : IngestAcc :=
  let acc1 :=
    match d.liveSports with
    | some l => { acc with liveSports := acc.liveSports ++ l }
    | none => acc
  let acc2 :=
    match d.liveHeaders with
    | some l => { acc1 with liveHeaders := acc1.liveHeaders ++ l }
    | none => acc1
  match d.liveBets with
  | some l => { acc2 with liveBets := acc2.liveBets ++ l }
  | none => acc2

/-- The longest digit run at the head of a character list. -/
def leadingDigits : List Char → List Char
  | [] => []
  | c :: t => if c.isDigit then c :: leadingDigits t else []

/-- Value of a digit run. -/
def digitsToNat (l : List Char) : Nat :=
  l.foldl (fun a c => 10 * a + (c.toNat - 48)) 0

/-- The decimal fragment of JavaScript `parseInt` on an already-trimmed
string: optional sign followed by leading digits; `none` models `NaN`. -/
def parseIntJS (s : String) : Option Int :=
  match s.data with
  | '-' :: rest =>
    match leadingDigits rest with
    | [] => none
    | ds => some (-(digitsToNat ds : Int))
  | '+' :: rest =>
    match leadingDigits rest with
    | [] => none
    | ds => some ((digitsToNat ds : Int))
  | l =>
    match leadingDigits l with
    | [] => none
    | ds => some ((digitsToNat ds : Int))

/-- The frame text after stripping an SSE `data:` prefix, as in the source's
`jsonData` local. -/
def effData (line : String) : String :=
  if jsStartsWith line "data:" then line.drop 5 else line

/-- The per-frame step of the bulk fetch: skip blank frames, strip the SSE
prefix, record an `END <timestamp>` sentinel, otherwise try JSON parsing
(`jp` stands for `JSON.parse`, returning `none` on a parse error, which the
source silently skips). -/
def processEventLine (jp : String → Option StreamPayload) (acc : IngestAcc)
    (line : String) : IngestAcc :=
  if jsIsEmpty (jsTrim line) then acc
  else
    let jsonData := effData line
    if jsIsEmpty (jsTrim jsonData) then acc
    else if jsStartsWith jsonData "END " then
      { acc with endTs := parseIntJS (jsTrim (jsonData.drop 4)) }
    else
      match jp jsonData with
      | some d => processLiveStreamData acc d
      | none => acc

/-- The accumulator after all frames of the bulk feed have been processed. -/
def ingestAccOf (jp : String → Option StreamPayload) (frames : List String) :
    IngestAcc :=
  frames.foldl (processEventLine jp) ⟨[], [], [], none⟩

/-- `LiveStreamService.initializeLiveEvents` on the frame sequence of the
bulk feed: resolve with the assembled snapshot when the final
`endTimestamp` is truthy, reject otherwise. -/
def initLiveEvents (jp : String → Option StreamPayload) (sport : String)
    (frames : List String) : Except String LiveDataS :=
  let acc := ingestAccOf jp frames
  match acc.endTs with
  | some t =>
    if t = 0 then Except.error "No END timestamp received from live events stream"
    else Except.ok
      { sports := acc.liveSports, headers := acc.liveHeaders,
        bets := acc.liveBets, lastTimestamp := t, sport := sport }
  | none => Except.error "No END timestamp received from live events stream"

/-- A frame that reaches the sentinel branch of the loop. -/
def isSentinel (line : String) : Bool :=
  !jsIsEmpty (jsTrim line) && !jsIsEmpty (jsTrim (effData line))
    && jsStartsWith (effData line) "END "

/-- What the sentinel branch stores for that frame. -/
def sentinelVal (line : String) : Option Int :=
  parseIntJS (jsTrim ((effData line).drop 4))

/-- `LiveStreamService.updateLiveHeaders` applied to the stored snapshot. -/
def updateLiveHeaders (ld : LiveDataS) (newHeaders : List StoreRec) : LiveDataS :=
  { ld with headers := updateLiveRecords ld.headers newHeaders }

/-- `LiveStreamService.updateLiveBets` applied to the stored snapshot. -/
def updateLiveBets (ld : LiveDataS) (newBets : List StoreRec) : LiveDataS :=
  { ld with bets := updateLiveRecords ld.bets newBets }

/-- `LiveStreamService.processLiveUpdateData`: apply the header and odds
patches of one update frame to the stored snapshot, if any is stored. -/
def processLiveUpdateData (ld : Option LiveDataS) (d : StreamPayload) :
    Option LiveDataS :=
  match ld with
  | none => none
  | some l =>
    let l1 := match d.liveHeaders with
      | some hs => updateLiveHeaders l hs
      | none => l
    let l2 := match d.liveBets with
      | some bs => updateLiveBets l1 bs
      | none => l1
    some l2

/-- Decidable equality of fallible outcomes, used only to evaluate the
definitions on concrete inputs. -/
instance {α β : Type} [DecidableEq α] [DecidableEq β] :
    DecidableEq (Except α β) := fun a b =>
  match a, b with
  | Except.ok x, Except.ok y =>
    if h : x = y then isTrue (by rw [h])
    else isFalse (fun hc => h (by injection hc))
  | Except.error x, Except.error y =>
    if h : x = y then isTrue (by rw [h])
    else isFalse (fun hc => h (by injection hc))
  | Except.ok _, Except.error _ => isFalse (fun hc => Except.noConfusion hc)
  | Except.error _, Except.ok _ => isFalse (fun hc => Except.noConfusion hc)

def dupHeaderA : StoreRec := ⟨1, [("h", Val.vstr "A")]⟩

def dupHeaderB : StoreRec := ⟨1, [("h", Val.vstr "B")]⟩

def dupPayload : StreamPayload := ⟨none, some [dupHeaderA, dupHeaderB], none⟩

/-- A JSON parser stub for a feed whose single data frame is `"F1"`. -/
def jpDup : String → Option StreamPayload :=
  fun s => if s = "F1" then some dupPayload else none

def dupLiveData : LiveDataS := ⟨[], [dupHeaderA, dupHeaderB], [], 7, "football"⟩

def c1s : List StoreRec := [⟨1, [("a", Val.vnum 1), ("b", Val.vnum 5)]⟩]

def c1r : StoreRec := ⟨1, [("a", Val.vnum 2)]⟩

/-- The two backoff timers the source schedules with `setTimeout`: a short
one (1s) from the stream `end` handler and a long one (5s) from the stream
`error` handler. -/
inductive TimerKind where
  | endBackoff
  | errorBackoff
deriving DecidableEq

/-- Events of the subscription loop: the transport closing without error,
a transport error, a pending backoff timer firing, and an explicit
`stopLiveSubscription` call. -/
inductive LoopEvent where
  | streamEnded
  | streamErrored
  | fireTimer : TimerKind → LoopEvent
  | stopCalled
deriving DecidableEq

/-- The observable loop state: the source's `shouldStream` and `isStreaming`
flags, the multiset of pending `setTimeout` callbacks, and a count of
connection attempts (calls of `subscribeToLiveUpdates`). -/
structure LoopState where
  shouldStream : Bool
  streamingFlag : Bool
  pending : List TimerKind
  attempts : Nat
deriving DecidableEq

/-- One step of the loop, line-for-line from the source's handlers:
`end` sets `isStreaming = false` and schedules the 1s timer; `error` sets
`isStreaming = false` and schedules the 5s timer; a firing 1s timer checks
`shouldStream` and, when set, sets `isStreaming = true` and reconnects; a
firing 5s timer checks `shouldStream` and, when set, reconnects (the error
path does not set `isStreaming` back); `stopLiveSubscription` clears both
flags and aborts the transport. -/
def loopStep (s : LoopState) (e : LoopEvent) : LoopState :=
  match e with
  | LoopEvent.streamEnded =>
    { s with streamingFlag := false, pending := s.pending ++ [TimerKind.endBackoff] }
  | LoopEvent.streamErrored =>
    { s with streamingFlag := false, pending := s.pending ++ [TimerKind.errorBackoff] }
  | LoopEvent.fireTimer k =>
    if k ∈ s.pending then
      let s1 := { s with pending := s.pending.erase k }
      match k with
      | TimerKind.endBackoff =>
        if s1.shouldStream then
          { s1 with streamingFlag := true, attempts := s1.attempts + 1 }
        else s1
      | TimerKind.errorBackoff =>
        if s1.shouldStream then { s1 with attempts := s1.attempts + 1 }
        else s1
    else s
  | LoopEvent.stopCalled =>
    { s with shouldStream := false, streamingFlag := false }

/-- A run of the loop over a sequence of events. -/
def loopRun (s : LoopState) (tr : List LoopEvent) : LoopState :=
  tr.foldl loopStep s

/-- One entry of a live bet's odds map `om`: odds value and bet pick code. -/
structure OmEntry where
  ov : Rat
  bpc : Int
deriving DecidableEq

/-- A live bet (`LiveBet` of `liveTypes.ts`). -/
structure LiveBetT where
  id : Int
  bc : Int
  mId : Int
  mc : Int
  sv : String
  st : String
  d : Bool
  lct : Int
  om : List (String × OmEntry)
deriving DecidableEq

/-- A live match header, restricted to the fields the enrichment reads. -/
structure LiveHeaderT where
  id : Int
  mc : Int
  s : String
deriving DecidableEq

/-- A `betPickMap` entry (`BetPickMapItem`), restricted to consulted fields. -/
structure BetPickMapItemT where
  label : String
  caption : String
  tipTypeCode : Int
  betPickCode : Int
  betCode : Int
  tipTypeName : String
deriving DecidableEq

/-- A `betPickGroupMap` entry (`BetPickGroup`), restricted to consulted
fields. -/
structure BetPickGroupT where
  id : Int
  description : String
  name : String
  orderNumber : Int
  tipTypes : List Int
  sport : String
deriving DecidableEq

/-- The reference catalog (`BettingOptionsResponse`), restricted to the two
dictionaries the enrichment joins against. -/
structure BettingOptionsT where
  betPickMap : List (String × BetPickMapItemT)
  betPickGroupMap : List (String × BetPickGroupT)
deriving DecidableEq

/-- An `EnhancedBetPick` of `dataService.ts`, restricted to consulted
fields. -/
structure EnhancedBetPickT where
  key : String
  label : String
  caption : String
  tipTypeCode : Int
  betPickCode : Int
  betCode : Int
  tipTypeName : String
  groupId : Option Int
  groupDescription : Option String
  groupName : Option String
  groupOrderNumber : Option Int
deriving DecidableEq

/-- Reading `m[k]` of a JS `Record<string, T>`. -/
def lookupStr {α : Type} (m : List (String × α)) (k : String) : Option α :=
  (m.find? (fun kv => kv.1 = k)).map (fun kv => kv.2)

/-- JS `x || d` for a string-or-undefined `x`: the empty string is falsy. -/
def jsOrStr (o : Option String) (d : String) : String :=
  match o with
  | some "" => d
  | some s => s
  | none => d

/-- JS `x || null` for a string-or-undefined `x`. -/
def jsStrOrNull (o : Option String) : Option String :=
  match o with
  | some "" => none
  | x => x

/-- JS `x || null` for a number-or-undefined `x`: `0` is falsy. -/
def jsIntOrNull (o : Option Int) : Option Int :=
  match o with
  | some 0 => none
  | x => x

/-- One odds entry produced by `SportMappingService.enhanceBetData`. -/
structure OddInfoT where
  key : String
  odds : Rat
  betPickCode : Int
  description : String
  caption : String
  groupId : Option Int
  groupDescription : Option String
  groupName : Option String
deriving DecidableEq

/-- The record `SportMappingService.enhanceBetData` returns
(`EnhancedBetData`). -/
structure EnhancedBetDataT where
  id : Int
  betCode : Int
  matchId : Int
  matchCode : Int
  specialValue : String
  status : String
  disabled : Bool
  lastChangeTime : Int
  sportCode : String
  odds : List OddInfoT
deriving DecidableEq

/-- The per-outcome body of `SportMappingService.enhanceBetData`: dictionary
lookup with ternary fallbacks `'Unknown bet'` / the outcome key, and group
lookup keyed by `betPickInfo?.betCode?.toString() || ''`. -/
def enhanceOddInfo (bo : BettingOptionsT) (sportCode : String)
    (key : String) (oddsData : OmEntry) : OddInfoT :=
  let betPickKey := key ++ "_" ++ sportCode
  let betPickInfo := lookupStr bo.betPickMap betPickKey
  let gkey :=
    match betPickInfo with
    | some i => toString i.betCode
    | none => ""
  let groupInfo := lookupStr bo.betPickGroupMap gkey
  { key := key, odds := oddsData.ov, betPickCode := oddsData.bpc,
    description := match betPickInfo with
      | some i => i.label
      | none => "Unknown bet",
    caption := match betPickInfo with
      | some i => i.caption
      | none => key,
    groupId := jsIntOrNull (groupInfo.map (fun g => g.id)),
    groupDescription := jsStrOrNull (groupInfo.map (fun g => g.description)),
    groupName := jsStrOrNull (groupInfo.map (fun g => g.name)) }

/-- `SportMappingService.enhanceBetData`. -/
def enhanceBetData (bettingOptions : Option BettingOptionsT) (bet : LiveBetT)
    (sportCode : String) : EnhancedBetDataT :=
  { id := bet.id, betCode := bet.bc, matchId := bet.mId, matchCode := bet.mc,
    specialValue := bet.sv, status := bet.st, disabled := bet.d,
    lastChangeTime := bet.lct, sportCode := sportCode,
    odds :=
      match bettingOptions with
      | none => []
      | some bo => bet.om.map (fun kv => enhanceOddInfo bo sportCode kv.1 kv.2) }

/-- `SportMappingService.enhanceBetsData`. -/
def enhanceBetsData (bo : Option BettingOptionsT) (bets : List LiveBetT)
    (sportCode : String) : List EnhancedBetDataT :=
  bets.map (fun bet => enhanceBetData bo bet sportCode)

/-- `SportMappingService.getSportCodeFromMatchCode`. -/
def getSportCodeFromMatchCode (matchCode : Int) (liveHeaders : List LiveHeaderT) :
    Option String :=
  (liveHeaders.find? (fun h => h.mc = matchCode)).map (fun h => h.s)

/-- `SportMappingService.getEnhancedBettingDataForMatch`: filter the match's
bets, resolve the sport code from the first bet's match code (empty result on
a falsy sport code), then enhance. -/
def getEnhancedBettingDataForMatch (bo : Option BettingOptionsT) (matchId : Int)
    (bets : List LiveBetT) (liveHeaders : List LiveHeaderT) :
    List EnhancedBetDataT :=
  let matchBets := bets.filter (fun b => b.mId = matchId)
  let mc0 :=
    match matchBets.head? with
    | some b0 => getSportCodeFromMatchCode b0.mc liveHeaders
    | none => none
  match mc0 with
  | none => []
  | some sc => if sc = "" then [] else enhanceBetsData bo matchBets sc

/-- One odds entry produced by the grouped live enrichment (and by the
pre-game enrichment, which shapes its outcome entries identically). -/
structure EnhancedOddT where
  key : String
  odds : Rat
  betPickCode : Int
  description : String
  caption : String
deriving DecidableEq

/-- The record `DataService.getEnhancedBettingDataForMatchWithGroups`
returns for one bet: the spread of the raw bet plus enrichment fields. -/
structure EnhancedMatchBetT where
  bet : LiveBetT
  sportCode : String
  odds : List EnhancedOddT
  groupId : Option Int
  groupDescription : Option String
  groupName : Option String
  groupOrderNumber : Option Int
deriving DecidableEq

/-- The per-outcome body of
`DataService.getEnhancedBettingDataForMatchWithGroups`: pick lookup in the
enhanced options with `||` fallbacks `'Unknown Description'` / `'N/A'`. -/
def enhanceOddWithGroups (picks : List EnhancedBetPickT) (sportCode : String)
    (key : String) (odd : OmEntry) : EnhancedOddT :=
  let betPickKey := key ++ "_" ++ sportCode
  let enhancedPick := picks.find? (fun p => p.key = betPickKey)
  { key := key, odds := odd.ov, betPickCode := odd.bpc,
    description := jsOrStr (enhancedPick.map (fun p => p.label)) "Unknown Description",
    caption := jsOrStr (enhancedPick.map (fun p => p.caption)) "N/A" }

/-- `DataService.getEnhancedBettingDataForMatchWithGroups`; when a bet's odds
map is empty, `Object.keys(bet.om)[0]` is `undefined` and the group lookup
key literally becomes `"undefined_<sport>"`. -/
def getEnhancedForMatchWithGroups (picks : List EnhancedBetPickT)
    (headers : List LiveHeaderT) (bets : List LiveBetT) (matchId : Int) :
    List EnhancedMatchBetT :=
  let matchBets := bets.filter (fun b => b.mId = matchId)
  if matchBets.isEmpty then []
  else
    match headers.find? (fun h => h.id = matchId) with
    | none => []
    | some hd =>
      if hd.s = "" then []
      else
        let sportCode := hd.s
        matchBets.map (fun bet =>
          let enhancedOdds :=
            bet.om.map (fun kv => enhanceOddWithGroups picks sportCode kv.1 kv.2)
          let firstOddKey :=
            match bet.om.head? with
            | some kv => kv.1
            | none => "undefined"
          let firstEnhancedPick :=
            picks.find? (fun p => p.key = firstOddKey ++ "_" ++ sportCode)
          { bet := bet, sportCode := sportCode, odds := enhancedOdds,
            groupId := jsIntOrNull (firstEnhancedPick.bind (fun p => p.groupId)),
            groupDescription :=
              jsStrOrNull (firstEnhancedPick.bind (fun p => p.groupDescription)),
            groupName := jsStrOrNull (firstEnhancedPick.bind (fun p => p.groupName)),
            groupOrderNumber :=
              jsIntOrNull (firstEnhancedPick.bind (fun p => p.groupOrderNumber)) })

def c6bet : LiveBetT :=
  { id := 9, bc := 3, mId := 5, mc := 100, sv := "", st := "A", d := false,
    lct := 0, om := [("42", ⟨2, 7⟩)] }

def c6header : LiveHeaderT := { id := 5, mc := 100, s := "S" }

/-- JS `s.split(sep)` for a single-character separator. -/
def splitChar (sep : Char) : List Char → List (List Char)
  | [] => [[]]
  | c :: t =>
    let r := splitChar sep t
    if c = sep then [] :: r
    else
      match r with
      | [] => [[c]]
      | h :: t' => (c :: h) :: t'

/-- JS `s.split(sep)` on strings. -/
def jsSplit (s : String) (sep : Char) : List String :=
  (splitChar sep s.data).map (fun l => ⟨l⟩)

/-- One `key=value` parameter of an `sv` field: `const [key, value] =
param.split('=')`, kept only when `key` is truthy and `value` is defined. -/
def svEntryOf (param : String) : Option (String × String) :=
  match jsSplit param '=' with
  | key :: value :: _ => if key = "" then none else some (jsTrim key, jsTrim value)
  | _ => none

/-- JS object property assignment on a string-valued record. -/
def setAssocStr : List (String × String) → String → String → List (String × String)
  | [], k, v => [(k, v)]
  | (k', v') :: t, k, v =>
    if k' = k then (k', v) :: t else (k', v') :: setAssocStr t k v

/-- JS object property read on a string-valued record. -/
def getAssocStr (m : List (String × String)) (k : String) : Option String :=
  (m.find? (fun kv => kv.1 = k)).map (fun kv => kv.2)

/-- `DataService.extractSpecialValues`: parse the comma-separated
`key=value` list of an `sv` field and read `total` and `hcp`, each falling
back to `null` (`|| null`, so an empty parsed value also becomes null). -/
def extractSpecialValues (svField : String) : Option String × Option String :=
  if svField = "" then (none, none)
  else
    let ps := (jsSplit svField ',').foldl
      (fun m p =>
        match svEntryOf p with
        | some kv => setAssocStr m kv.1 kv.2
        | none => m) []
    (jsStrOrNull (getAssocStr ps "total"), jsStrOrNull (getAssocStr ps "hcp"))

/-- The group-id token of the grouping key:
`enhancedPick?.groupId || 'ungrouped'` (absent pick, null group id and group
id `0` are all falsy). -/
def jsGroupIdTok (pick : Option EnhancedBetPickT) : String :=
  match pick with
  | none => "ungrouped"
  | some p =>
    match p.groupId with
    | none => "ungrouped"
    | some g => if g = 0 then "ungrouped" else toString g

/-- The grouping key
`` `${groupId || 'ungrouped'}_${total || 'no-total'}_${handicap || 'no-handicap'}` ``. -/
def preGameGroupKey (pick : Option EnhancedBetPickT)
    (sv : Option String × Option String) : String :=
  jsGroupIdTok pick ++ "_" ++ jsOrStr sv.1 "no-total" ++ "_"
    ++ jsOrStr sv.2 "no-handicap"

/-- A raw scheduled pick (`PreGameBet` of `pregameTypes.ts`). -/
structure PreGameBetT where
  bpc : Int
  tt : Int
  s : String
  ov : Rat
  bc : Int
  sv : String
deriving DecidableEq

/-- The enriched record built per grouping key (`EnhancedPreGameBet`). -/
structure EnhancedPreGameBetT where
  id : String
  betCode : Int
  betPickCode : Int
  tipType : Int
  status : String
  specialValue : String
  sv : String
  description : String
  caption : String
  groupId : Option Int
  groupDescription : Option String
  groupName : Option String
  groupOrderNumber : Option Int
  odds : List EnhancedOddT
deriving DecidableEq

/-- The dictionary pick of a raw scheduled entry:
`picks.find(pick => pick.key === `${betKey}_${sportCode}`)`. -/
def pgPickOf (picks : List EnhancedBetPickT) (sportCode betKey : String) :
    Option EnhancedBetPickT :=
  picks.find? (fun p => p.key = betKey ++ "_" ++ sportCode)

/-- The grouping key derived for one raw entry `(betKey, bet)`. -/
def gkOfEntry (picks : List EnhancedBetPickT) (sportCode : String)
    (e : String × PreGameBetT) : String :=
  preGameGroupKey (pgPickOf picks sportCode e.1) (extractSpecialValues e.2.sv)

/-- The (groupId, parsed total, parsed handicap) triple the claim speaks of. -/
def tripleOfEntry (picks : List EnhancedBetPickT) (sportCode : String)
    (e : String × PreGameBetT) :
    Option (Option Int) × Option String × Option String :=
  ((pgPickOf picks sportCode e.1).map (fun p => p.groupId),
   (extractSpecialValues e.2.sv).1, (extractSpecialValues e.2.sv).2)

/-- The outcome entry appended for one raw entry. -/
def mkPreGameOdd (picks : List EnhancedBetPickT) (sportCode : String)
    (e : String × PreGameBetT) : EnhancedOddT :=
  let pick := pgPickOf picks sportCode e.1
  { key := e.1, odds := e.2.ov, betPickCode := e.2.bpc,
    description := jsOrStr (pick.map (fun p => p.label)) "Unknown Description",
    caption := jsOrStr (pick.map (fun p => p.caption)) "N/A" }

/-- The fresh enriched record seeded from the first entry of a group. -/
def mkPreGameBet (matchId : Int) (picks : List EnhancedBetPickT)
    (sportCode : String) (gk : String) (e : String × PreGameBetT) :
    EnhancedPreGameBetT :=
  let pick := pgPickOf picks sportCode e.1
  { id := toString matchId ++ "_" ++ gk,
    betCode := e.2.bc, betPickCode := e.2.bpc, tipType := e.2.tt,
    status := e.2.s, specialValue := e.2.sv, sv := e.2.sv,
    description := jsOrStr (pick.map (fun p => p.label)) "Unknown Description",
    caption := jsOrStr (pick.map (fun p => p.caption)) "N/A",
    groupId := jsIntOrNull (pick.bind (fun p => p.groupId)),
    groupDescription := jsStrOrNull (pick.bind (fun p => p.groupDescription)),
    groupName := jsStrOrNull (pick.bind (fun p => p.groupName)),
    groupOrderNumber := jsIntOrNull (pick.bind (fun p => p.groupOrderNumber)),
    odds := [mkPreGameOdd picks sportCode e] }

/-- `existingBet.odds.push(...)`: extend the odds of the (unique) map entry
for this grouping key, in place. -/
def appendOddToGroup :
    List (String × EnhancedPreGameBetT) → String → EnhancedOddT →
      List (String × EnhancedPreGameBetT)
  | [], _, _ => []
  | (k, b) :: t, gk, o =>
    if k = gk then (k, { b with odds := b.odds ++ [o] }) :: t
    else (k, b) :: appendOddToGroup t gk o

/-- One iteration of the `enhancePreGameBets` loop over `groupedBets` (a JS
`Map` in insertion order). -/
def pgStep (matchId : Int) (picks : List EnhancedBetPickT) (sportCode : String)
    (acc : List (String × EnhancedPreGameBetT)) (e : String × PreGameBetT) :
    List (String × EnhancedPreGameBetT) :=
  let gk := gkOfEntry picks sportCode e
  if (acc.find? (fun kv => kv.1 = gk)).isSome then
    appendOddToGroup acc gk (mkPreGameOdd picks sportCode e)
  else
    acc ++ [(gk, mkPreGameBet matchId picks sportCode gk e)]

/-- `DataService.enhancePreGameBets` over the flattened iteration sequence of
the match's nested bet map: fold the per-entry step, then return the map's
values in insertion order. -/
def enhancePreGameBets (matchId : Int) (picks : List EnhancedBetPickT)
    (sportCode : String) (entries : List (String × PreGameBetT)) :
    List EnhancedPreGameBetT :=
  (entries.foldl (pgStep matchId picks sportCode) []).map Prod.snd

/-- The distinct elements of a list in first-occurrence order. -/
def firstKeys : List String → List String
  | [] => []
  | k :: t => k :: firstKeys (t.filter (fun x => x ≠ k))
termination_by l => l.length
decreasing_by
  simp only [List.length_cons]
  exact Nat.lt_succ_of_le (List.length_filter_le _ t)

/-- The enriched record a run of same-key entries produces: descriptive
fields seeded by its first entry, one outcome entry per entry, in order.
(The nil case never arises for the keys the enrichment produces.) -/
def buildPreGameRecord (matchId : Int) (picks : List EnhancedBetPickT)
    (sportCode : String) (gk : String) :
    List (String × PreGameBetT) → EnhancedPreGameBetT
  | [] => mkPreGameBet matchId picks sportCode gk ("", ⟨0, 0, "", 0, 0, ""⟩)
  | e0 :: rest =>
    { mkPreGameBet matchId picks sportCode gk e0 with
      odds := (e0 :: rest).map (mkPreGameOdd picks sportCode) }

/-- The accumulator the `enhancePreGameBets` fold holds after processing a
run of entries: one map entry per distinct grouping key in first-occurrence
order, each carrying the record built from the entries of that key. -/
def pgAccSpec (matchId : Int) (picks : List EnhancedBetPickT)
    (sportCode : String) (done : List (String × PreGameBetT)) :
    List (String × EnhancedPreGameBetT) :=
  (firstKeys (done.map (gkOfEntry picks sportCode))).map
    (fun k => (k, buildPreGameRecord matchId picks sportCode k
      (done.filter (fun e => gkOfEntry picks sportCode e = k))))

/-- Auxiliary form of the group-id token, as a function of the pick's
`groupId` component alone. -/
def jsGroupIdTokOpt (g : Option (Option Int)) : String :=
  match g with
  | none => "ungrouped"
  | some none => "ungrouped"
  | some (some x) => if x = 0 then "ungrouped" else toString x

def cxE1 : String × PreGameBetT := ("1", ⟨1, 1, "A", 2, 10, "total=a_b,hcp=c"⟩)

def cxE2 : String × PreGameBetT := ("2", ⟨2, 1, "A", 3, 10, "total=a,hcp=b_c"⟩)

/-- A sport row of the provider catalog (`SportData`), restricted to the
fields the mapping and filtering logic reads. -/
structure SportDataT where
  name : String
  sportTypeCode : String
  active : Bool
deriving DecidableEq

/-- A `SportMapping` of `sportMappingService.ts`. -/
structure SportMapping where
  name : String
  sportTypeCode : String
  englishName : String
deriving DecidableEq

/-- JS object / `Map.set` assignment, generic value type. -/
def setAssoc {α : Type} : List (String × α) → String → α → List (String × α)
  | [], k, v => [(k, v)]
  | (k', v') :: t, k, v =>
    if k' = k then (k', v) :: t else (k', v') :: setAssoc t k v

/-- The hard-coded `sportNameMap` of `initializeSportMappings`. -/
def sportNameMapJS (n : String) : Option String :=
  if n = "FUDBAL" then some "football"
  else if n = "KOŠARKA" then some "basketball"
  else if n = "TENIS" then some "tennis"
  else none

/-- `SportMappingService.initializeSportMappings`: clear the map, then set
one mapping per recognised sport row. -/
def initSportMappings (sportsData : List SportDataT) : List (String × SportMapping) :=
  sportsData.foldl
    (fun m sport =>
      match sportNameMapJS sport.name with
      | some englishName =>
        setAssoc m englishName
          ⟨sport.name, sport.sportTypeCode, englishName⟩
      | none => m) []

/-- The mutable state of `SportMappingService`. -/
structure SmsState where
  mappings : List (String × SportMapping)
  bettingOptions : Option BettingOptionsT
deriving DecidableEq

/-- `SportMappingService.getSportTypeCode`. -/
def getSportTypeCode (sms : SmsState) (sportName : String) : Option String :=
  (lookupStr sms.mappings sportName).map (fun m => m.sportTypeCode)

/-- `SportMappingService.filterLiveHeadersBySport`: empty on a falsy sport
type code, otherwise keep headers whose `s` field strictly equals the code. -/
def filterLiveHeadersBySport (sms : SmsState) (headers : List StoreRec)
    (sportName : String) : List StoreRec :=
  match getSportTypeCode sms sportName with
  | none => []
  | some code =>
    if code = "" then []
    else headers.filter (fun h => getField h.fields "s" = some (Val.vstr code))

/-- An `EnhancedBetGroup` of `dataService.ts`, restricted to consulted
fields. -/
structure EnhancedBetGroupT where
  id : Int
  description : String
  name : String
  orderNumber : Int
  tipTypes : List Int
  sport : String
  picks : List EnhancedBetPickT
deriving DecidableEq

/-- `EnhancedBettingOptions` of `dataService.ts`. -/
structure EnhOptsT where
  groups : List EnhancedBetGroupT
  picks : List EnhancedBetPickT
deriving DecidableEq

/-- JS `s.endsWith(p)`. -/
def jsEndsWith (s p : String) : Bool :=
  startsWithChars s.data.reverse p.data.reverse

/-- The group object built from a catalog group row (picks start empty). -/
def mkEnhancedGroup (g : BetPickGroupT) : EnhancedBetGroupT :=
  { id := g.id, description := g.description, name := g.name,
    orderNumber := g.orderNumber, tipTypes := g.tipTypes, sport := g.sport,
    picks := [] }

/-- `enhancedGroups.find(g => g.tipTypes && g.tipTypes.includes(tc))`. -/
def findGroupFor (groups : List EnhancedBetGroupT) (tc : Int) :
    Option EnhancedBetGroupT :=
  groups.find? (fun g => tc ∈ g.tipTypes)

/-- `group.picks.push(pick)` on the first group owning the tip type code. -/
def pushPickFirstGroup :
    List EnhancedBetGroupT → EnhancedBetPickT → Int → List EnhancedBetGroupT
  | [], _, _ => []
  | g :: t, pk, tc =>
    if tc ∈ g.tipTypes then { g with picks := g.picks ++ [pk] } :: t
    else g :: pushPickFirstGroup t pk tc

/-- The enhanced pick built from a `betPickMap` row and its (optional)
owning group. -/
def mkEnhancedPick (pickKey : String) (pickInfo : BetPickMapItemT)
    (group : Option EnhancedBetGroupT) : EnhancedBetPickT :=
  { key := pickKey, label := pickInfo.label, caption := pickInfo.caption,
    tipTypeCode := pickInfo.tipTypeCode, betPickCode := pickInfo.betPickCode,
    betCode := pickInfo.betCode, tipTypeName := pickInfo.tipTypeName,
    groupId := jsIntOrNull (group.map (fun g => g.id)),
    groupDescription := jsStrOrNull (group.map (fun g => g.description)),
    groupName := jsStrOrNull (group.map (fun g => g.name)),
    groupOrderNumber := jsIntOrNull (group.map (fun g => g.orderNumber)) }

/-- `DataService.createEnhancedBettingOptions`. -/
def createEnhancedOpts (sms : SmsState) (bo : BettingOptionsT) (sport : String) :
    EnhOptsT :=
  match getSportTypeCode sms sport with
  | none => ⟨[], []⟩
  | some code =>
    if code = "" then ⟨[], []⟩
    else
      let groups0 := (bo.betPickGroupMap.filter
        (fun kv => kv.2.sport = code)).map (fun kv => mkEnhancedGroup kv.2)
      let r := bo.betPickMap.foldl
        (fun (acc : List EnhancedBetGroupT × List EnhancedBetPickT) kv =>
          if jsEndsWith kv.1 ("_" ++ code) then
            let group := findGroupFor acc.1 kv.2.tipTypeCode
            let pk := mkEnhancedPick kv.1 kv.2 group
            (pushPickFirstGroup acc.1 pk kv.2.tipTypeCode, acc.2 ++ [pk])
          else acc)
        (groups0, [])
      ⟨r.1, r.2⟩

/-- A scheduled match of the pre-game response (`PreGameMatch`), restricted
to the fields the enrichment reads; the nested bet map is carried in
iteration order. -/
structure PreGameMatchT where
  id : Int
  sport : String
  betMap : List (String × List (String × PreGameBetT))
deriving DecidableEq

/-- A pre-game response (`PreGameResponse`), restricted to its match list. -/
structure PreGameRespT where
  esMatches : List PreGameMatchT
deriving DecidableEq

/-- The modes of `DataService.initialize`. -/
inductive ModeT where
  | live
  | pregame
deriving DecidableEq

/-- The mutable state of `LiveStreamService` seen by the orchestrator. -/
structure LssState where
  streamingFlag : Bool
  shouldStream : Bool
  currentTimestamp : Option Int
  liveData : Option LiveDataS
  abortCtrl : Bool
deriving DecidableEq

/-- The `InitializedData` record stored by a successful `initialize`. -/
structure InitDataS where
  sports : List SportDataT
  bettingOptions : BettingOptionsT
  enhancedBettingOptions : EnhOptsT
  mode : ModeT
  sport : String
  interval : Option String
  liveData : Option LiveDataS
  preGameData : Option PreGameRespT
deriving DecidableEq

/-- The combined observable state of `DataService` and its collaborator
services. -/
structure DsState where
  lss : LssState
  sms : SmsState
  initData : Option InitDataS
  initFlag : Bool
deriving DecidableEq

/-- `LiveStreamService.stopLiveSubscription`: clear both flags and abort any
ongoing request. -/
def stopLiveSub (l : LssState) : LssState :=
  { l with streamingFlag := false, shouldStream := false, abortCtrl := false }

/-- `DataService.reset`: stop the stream only when `isCurrentlyStreaming()`,
then clear the initialization state. -/
def reset (st : DsState) : DsState :=
  let st1 := if st.lss.streamingFlag then { st with lss := stopLiveSub st.lss } else st
  { st1 with initData := none, initFlag := false }

/-- `DataService.getLiveData`, which delegates to
`LiveStreamService.getLiveData`. -/
def getLiveDataQ (st : DsState) : Option LiveDataS :=
  st.lss.liveData

/-- `DataService.isLiveStreaming`. -/
def isLiveStreamingQ (st : DsState) : Bool :=
  st.lss.streamingFlag

/-- JS truthiness of the stored numeric timestamp. -/
def tsTruthy : Option Int → Bool
  | none => false
  | some t => t != 0

/-- The injected outcomes of the external calls `initialize` performs, in
order: the catalog fetch, the bulk live fetch, the subscription connect, and
the pre-game fetch. -/
structure InitEnv where
  catalog : Except String (List SportDataT × BettingOptionsT)
  liveInit : Except String LiveDataS
  subscribe : Except String Unit
  preGame : Except String PreGameRespT

/-- `LiveStreamService.startLiveSubscription` followed by the first
`subscribeToLiveUpdates` call: throw on a falsy timestamp, return early when
already streaming, otherwise set both flags and connect; a connect failure
clears `isStreaming` and rethrows. -/
def startLiveSub (l : LssState) (sub : Except String Unit) :
    LssState × Except String Unit :=
  if tsTruthy l.currentTimestamp = false then
    (l, Except.error "No timestamp available. Initialize live events first.")
  else if l.streamingFlag then (l, Except.ok ())
  else
    let l1 := { l with streamingFlag := true, shouldStream := true }
    match sub with
    | Except.error e =>
      ({ l1 with abortCtrl := true, streamingFlag := false }, Except.error e)
    | Except.ok _ => ({ l1 with abortCtrl := true }, Except.ok ())

/-- `DataService.initialize`: catalog fetch, sport-mapping rebuild, enhanced
catalog build, betting-options store, then the mode branch (bulk live fetch,
header filter, subscription start — or pre-game fetch), and only then the
commit of `initializedData` / `isInitialized`.  Every failure rethrows with
the mutations made so far left in place. -/
def dsInit (st : DsState) (mode : ModeT) (sport : String)
    (interval : Option String) (env : InitEnv) :
    DsState × Except String InitDataS :=
  match env.catalog with
  | Except.error e => (st, Except.error e)
  | Except.ok (sports, bo) =>
    let sms1 : SmsState :=
      { mappings := initSportMappings sports,
        bettingOptions := st.sms.bettingOptions }
    let enh := createEnhancedOpts sms1 bo sport
    let sms2 : SmsState := { sms1 with bettingOptions := some bo }
    let st1 : DsState := { st with sms := sms2 }
    match mode with
    | ModeT.live =>
      match env.liveInit with
      | Except.error e =>
        ({ st1 with lss := { st1.lss with abortCtrl := true } }, Except.error e)
      | Except.ok d =>
        let filtered := filterLiveHeadersBySport sms2 d.headers sport
        let d2 : LiveDataS := { d with headers := filtered }
        let lss1 : LssState :=
          { st1.lss with
            abortCtrl := true,
            currentTimestamp := some d.lastTimestamp, liveData := some d2 }
        match startLiveSub lss1 env.subscribe with
        | (lss2, Except.error e) => ({ st1 with lss := lss2 }, Except.error e)
        | (lss2, Except.ok _) =>
          let idata : InitDataS :=
            { sports := sports, bettingOptions := bo,
              enhancedBettingOptions := enh, mode := mode, sport := sport,
              interval := interval, liveData := some d2, preGameData := none }
          ({ st1 with lss := lss2, initData := some idata, initFlag := true },
            Except.ok idata)
    | ModeT.pregame =>
      match env.preGame with
      | Except.error e => (st1, Except.error e)
      | Except.ok pg =>
        let idata : InitDataS :=
          { sports := sports, bettingOptions := bo,
            enhancedBettingOptions := enh, mode := mode, sport := sport,
            interval := interval, liveData := none, preGameData := some pg }
        ({ st1 with initData := some idata, initFlag := true }, Except.ok idata)

def c7LiveData : LiveDataS := ⟨[], [dupHeaderA], [], 7, "football"⟩

def c7InitData : InitDataS :=
  ⟨[], ⟨[], []⟩, ⟨[], []⟩, ModeT.live, "football", none, some c7LiveData, none⟩

def c7State : DsState :=
  ⟨⟨false, false, some 7, some c7LiveData, false⟩, ⟨[], none⟩,
    some c7InitData, true⟩

def c8NewLive : LiveDataS := ⟨[], [], [], 9, "football"⟩

def c8Env : InitEnv :=
  ⟨Except.ok ([], ⟨[], []⟩), Except.ok c8NewLive, Except.error "boom",
    Except.error "unused"⟩

-- ## Theorems

theorem upsertRecord_nil (r : StoreRec) : upsertRecord [] r = [r] := rfl

theorem upsertRecord_cons_hit (h : StoreRec) (t : List StoreRec) (r : StoreRec)
    (hh : h.rid = r.rid) : upsertRecord (h :: t) r = mergeRec h r :: t := by
  simp [upsertRecord, List.findIdx?_cons, hh]

theorem upsertRecord_cons_miss (h : StoreRec) (t : List StoreRec) (r : StoreRec)
    (hh : ¬ h.rid = r.rid) : upsertRecord (h :: t) r = h :: upsertRecord t r := by
  simp only [upsertRecord, List.findIdx?_cons, hh, decide_eq_false, cond_false]
  cases hfi : t.findIdx? (fun x => decide (x.rid = r.rid)) with
  | none => simp [hfi]
  | some i => simp [hfi]

theorem getField_cons (k0 : String) (v0 : Val) (t : Obj) (k : String) :
    getField ((k0, v0) :: t) k = if k0 = k then some v0 else getField t k := rfl

theorem setField_cons (k0 : String) (v0 : Val) (t : Obj) (k : String) (v : Val) :
    setField ((k0, v0) :: t) k v =
      if k0 = k then (k0, v) :: t else (k0, v0) :: setField t k v := rfl

theorem keysOf_nil : keysOf ([] : Obj) = [] := rfl

theorem keysOf_cons (k0 : String) (v0 : Val) (t : Obj) :
    keysOf ((k0, v0) :: t) = k0 :: keysOf t := rfl

theorem keysOf_append (a b : Obj) : keysOf (a ++ b) = keysOf a ++ keysOf b := by
  simp [keysOf]

theorem getField_setField (o : Obj) (k : String) (v : Val) (k' : String) :
    getField (setField o k v) k' = if k = k' then some v else getField o k' := by
  induction o with
  | nil => simp [setField, getField]
  | cons p t ih =>
    obtain ⟨k0, v0⟩ := p
    by_cases h0 : k0 = k
    · subst h0
      by_cases h1 : k0 = k'
      · subst h1; simp [setField_cons, getField_cons]
      · simp [setField_cons, getField_cons, h1]
    · by_cases h1 : k0 = k'
      · have h2 : ¬ k = k' := fun hk => h0 (h1.trans hk.symm)
        have h2' : ¬ k' = k := fun hk => h2 hk.symm
        subst h1
        simp [setField_cons, getField_cons, h2, h2']
      · simp [setField_cons, getField_cons, h0, h1, ih]

theorem mem_keysOf_iff_getField (o : Obj) (k : String) :
    k ∈ keysOf o ↔ (getField o k).isSome := by
  induction o with
  | nil => simp [keysOf_nil, getField]
  | cons p t ih =>
    obtain ⟨k0, v0⟩ := p
    rw [keysOf_cons, getField_cons]
    by_cases h : k0 = k
    · subst h; simp
    · have h' : ¬ k = k0 := fun hk => h hk.symm
      simp [h, h', ih]

theorem getField_eq_none_of_not_mem {o : Obj} {k : String} (h : k ∉ keysOf o) :
    getField o k = none := by
  rcases hg : getField o k with _ | v
  · rfl
  · exact absurd ((mem_keysOf_iff_getField o k).2 (by simp [hg])) h

theorem keysOf_setField (o : Obj) (k : String) (v : Val) :
    keysOf (setField o k v) =
      if k ∈ keysOf o then keysOf o else keysOf o ++ [k] := by
  induction o with
  | nil => simp [setField, keysOf_nil, keysOf]
  | cons p t ih =>
    obtain ⟨k0, v0⟩ := p
    rw [setField_cons]
    by_cases h0 : k0 = k
    · subst h0
      simp [keysOf_cons]
    · have hne : ¬ k = k0 := fun hk => h0 hk.symm
      by_cases hm : k ∈ keysOf t
      · simp [keysOf_cons, h0, hne, hm, ih]
      · simp [keysOf_cons, h0, hne, hm, ih]

theorem mem_keysOf_setField {o : Obj} {k k' : String} (v : Val) :
    k' ∈ keysOf (setField o k v) ↔ k' ∈ keysOf o ∨ k' = k := by
  rw [keysOf_setField]
  by_cases hm : k ∈ keysOf o
  · rw [if_pos hm]
    constructor
    · exact Or.inl
    · rintro (h1 | h1)
      · exact h1
      · exact h1 ▸ hm
  · rw [if_neg hm]
    simp

theorem nodup_keysOf_setField {o : Obj} {k : String} (v : Val)
    (h : (keysOf o).Nodup) : (keysOf (setField o k v)).Nodup := by
  rw [keysOf_setField]
  by_cases hm : k ∈ keysOf o
  · rwa [if_pos hm]
  · rw [if_neg hm, List.nodup_append]
    refine ⟨h, List.nodup_singleton k, ?_⟩
    intro a ha hb
    rw [List.mem_singleton] at hb
    exact hm (hb ▸ ha)

theorem orOpt_some (v : Val) (b : Option Val) : orOpt (some v) b = some v := rfl

theorem orOpt_none (b : Option Val) : orOpt none b = b := rfl

theorem orOpt_self_absorb (a b : Option Val) : orOpt a (orOpt a b) = orOpt a b := by
  cases a <;> rfl

theorem objMerge_nil (o : Obj) : objMerge o [] = o := rfl

theorem objMerge_cons (o : Obj) (k : String) (v : Val) (n : Obj) :
    objMerge o ((k, v) :: n) = objMerge (setField o k v) n := rfl

theorem objMerge_append (o a b : Obj) :
    objMerge o (a ++ b) = objMerge (objMerge o a) b := by
  simp [objMerge, List.foldl_append]

theorem lastVal_cons (k0 : String) (v0 : Val) (t : Obj) (k : String) :
    lastVal ((k0, v0) :: t) k =
      match lastVal t k with
      | some v => some v
      | none => if k0 = k then some v0 else none := rfl

theorem lastVal_append (a b : Obj) (k : String) :
    lastVal (a ++ b) k = orOpt (lastVal b k) (lastVal a k) := by
  induction a with
  | nil => cases hb : lastVal b k <;> simp [lastVal, orOpt, hb]
  | cons p t ih =>
    obtain ⟨k0, v0⟩ := p
    rw [List.cons_append, lastVal_cons, lastVal_cons, ih]
    cases hb : lastVal b k <;> cases ht : lastVal t k <;> simp [orOpt]

theorem getField_objMerge (o n : Obj) (k : String) :
    getField (objMerge o n) k = orOpt (lastVal n k) (getField o k) := by
  induction n generalizing o with
  | nil => simp [objMerge_nil, lastVal, orOpt]
  | cons p t ih =>
    obtain ⟨k0, v0⟩ := p
    rw [objMerge_cons, ih, lastVal_cons, getField_setField]
    cases ht : lastVal t k with
    | some v => simp [orOpt]
    | none =>
      by_cases h0 : k0 = k
      · simp [h0, orOpt]
      · simp [h0, orOpt]

theorem mem_keysOf_objMerge (o n : Obj) (k : String) :
    k ∈ keysOf (objMerge o n) ↔ k ∈ keysOf o ∨ k ∈ keysOf n := by
  induction n generalizing o with
  | nil => simp [objMerge_nil, keysOf_nil]
  | cons p t ih =>
    obtain ⟨k0, v0⟩ := p
    rw [objMerge_cons, ih, keysOf_cons]
    rw [show ∀ a b, a ∈ keysOf (setField o b (v0 : Val)) ↔ a ∈ keysOf o ∨ a = b from
      fun a b => mem_keysOf_setField v0]
    constructor
    · rintro ((h | h) | h)
      · exact Or.inl h
      · exact Or.inr (by simp [h])
      · exact Or.inr (by simp [h])
    · rintro (h | h)
      · exact Or.inl (Or.inl h)
      · rcases List.mem_cons.1 h with h1 | h1
        · exact Or.inl (Or.inr h1)
        · exact Or.inr h1

theorem keysOf_objMerge_of_subset {o n : Obj} (h : ∀ k ∈ keysOf n, k ∈ keysOf o) :
    keysOf (objMerge o n) = keysOf o := by
  induction n generalizing o with
  | nil => rw [objMerge_nil]
  | cons p t ih =>
    obtain ⟨k0, v0⟩ := p
    rw [objMerge_cons]
    have hk0 : k0 ∈ keysOf o := h k0 (by simp [keysOf_cons])
    have hset : keysOf (setField o k0 v0) = keysOf o := by
      rw [keysOf_setField, if_pos hk0]
    rw [ih, hset]
    intro k hk
    rw [hset]
    exact h k (by simp [keysOf_cons, hk])

theorem nodup_keysOf_objMerge {o : Obj} (n : Obj) (h : (keysOf o).Nodup) :
    (keysOf (objMerge o n)).Nodup := by
  induction n generalizing o with
  | nil => rwa [objMerge_nil]
  | cons p t ih =>
    obtain ⟨k0, v0⟩ := p
    rw [objMerge_cons]
    exact ih (nodup_keysOf_setField v0 h)

/-- Extensionality for field lists without duplicate keys: equal ordered key
lists and equal lookups force equal lists. -/
theorem objExt : ∀ {o o' : Obj}, keysOf o = keysOf o' → (keysOf o).Nodup →
    (∀ k, getField o k = getField o' k) → o = o'
  | [], [], _, _, _ => rfl
  | [], (k0, v0) :: t', hk, _, _ => by simp [keysOf_nil, keysOf_cons] at hk
  | (k0, v0) :: t, [], hk, _, _ => by simp [keysOf_nil, keysOf_cons] at hk
  | (k0, v0) :: t, (k0', v0') :: t', hk, hnd, hg => by
    rw [keysOf_cons, keysOf_cons] at hk
    have hkey : k0 = k0' := by injection hk
    have htk : keysOf t = keysOf t' := by injection hk
    subst hkey
    have hv : v0 = v0' := by
      have := hg k0
      simpa [getField_cons] using this
    subst hv
    rw [keysOf_cons] at hnd
    have hnotin : k0 ∉ keysOf t := by
      have := List.nodup_cons.1 hnd
      exact this.1
    have hnd' : (keysOf t).Nodup := (List.nodup_cons.1 hnd).2
    have ht : t = t' := by
      refine objExt htk hnd' (fun k => ?_)
      by_cases hk0 : k = k0
      · subst hk0
        rw [getField_eq_none_of_not_mem hnotin,
          getField_eq_none_of_not_mem (htk ▸ hnotin)]
      · have := hg k
        have h0 : ¬ k0 = k := fun hkk => hk0 hkk.symm
        simpa [getField_cons, h0] using this
    rw [ht]

theorem lastVal_eq_getField_of_nodup : ∀ {o : Obj}, (keysOf o).Nodup →
    ∀ k, lastVal o k = getField o k
  | [], _, _ => rfl
  | (k0, v0) :: t, hnd, k => by
    rw [keysOf_cons, List.nodup_cons] at hnd
    rw [lastVal_cons, getField_cons, lastVal_eq_getField_of_nodup hnd.2]
    by_cases h0 : k0 = k
    · subst h0
      rw [getField_eq_none_of_not_mem hnd.1]
    · cases hgt : getField t k <;> simp [h0]

/-- Re-applying the same assignment list to an object it has already been
applied to changes nothing (JS spread is idempotent). -/
theorem objMerge_idem {o : Obj} (n : Obj) (h : (keysOf o).Nodup) :
    objMerge (objMerge o n) n = objMerge o n := by
  refine objExt ?_ ?_ ?_
  · exact keysOf_objMerge_of_subset
      (fun k hk => (mem_keysOf_objMerge o n k).2 (Or.inr hk))
  · exact nodup_keysOf_objMerge n (nodup_keysOf_objMerge n h)
  · intro k
    rw [getField_objMerge, getField_objMerge, orOpt_self_absorb]

/-- Replaying earlier assignments of an object over later ones is absorbed:
`{...x, ...n, ...x, ...n} = {...x, ...n}` when `x` has no duplicate keys. -/
theorem objMerge_self_absorb {x : Obj} (n : Obj) (h : (keysOf x).Nodup) :
    objMerge x (n ++ x ++ n) = objMerge x n := by
  refine objExt ?_ ?_ ?_
  · rw [objMerge_append, objMerge_append]
    have h1 : keysOf (objMerge (objMerge x n) x) = keysOf (objMerge x n) :=
      keysOf_objMerge_of_subset
        (fun k hk => (mem_keysOf_objMerge x n k).2 (Or.inl hk))
    have h2 : keysOf (objMerge (objMerge (objMerge x n) x) n)
        = keysOf (objMerge (objMerge x n) x) :=
      keysOf_objMerge_of_subset (fun k hk =>
        (mem_keysOf_objMerge (objMerge x n) x k).2
          (Or.inl ((mem_keysOf_objMerge x n k).2 (Or.inr hk))))
    rw [h2, h1]
  · rw [objMerge_append, objMerge_append]
    exact nodup_keysOf_objMerge _ (nodup_keysOf_objMerge _ (nodup_keysOf_objMerge _ h))
  · intro k
    rw [getField_objMerge, getField_objMerge, lastVal_append, lastVal_append]
    cases hn : lastVal n k with
    | some v => simp [orOpt, hn]
    | none =>
      cases hx : lastVal x k with
      | some v =>
        rw [lastVal_eq_getField_of_nodup h] at hx
        simp [orOpt, hx]
      | none => simp [orOpt, hx]

theorem storeRecExt {a b : StoreRec} (h1 : a.rid = b.rid) (h2 : a.fields = b.fields) :
    a = b := by
  cases a; cases b
  simp only at h1 h2
  simp [h1, h2]

theorem foldl_mergeRec_fields : ∀ (L : List StoreRec) (h : StoreRec),
    (L.foldl mergeRec h).fields = objMerge h.fields (fieldsConcat L)
  | [], h => by simp [fieldsConcat, objMerge_nil]
  | r :: t, h => by
    rw [List.foldl_cons, foldl_mergeRec_fields t (mergeRec h r)]
    show objMerge (objMerge h.fields r.fields) (fieldsConcat t) = _
    rw [← objMerge_append]
    rfl

theorem foldl_mergeRec_rid : ∀ (L : List StoreRec) (h : StoreRec) (i : Int),
    (∀ r ∈ L, r.rid = i) → h.rid = i → (L.foldl mergeRec h).rid = i
  | [], h, i, _, hh => hh
  | r :: t, h, i, hL, hh => by
    rw [List.foldl_cons]
    exact foldl_mergeRec_rid t (mergeRec h r) i
      (fun x hx => hL x (List.mem_cons_of_mem r hx))
      (hL r (List.mem_cons_self r t))

theorem updateLiveRecords_nil (s : List StoreRec) : updateLiveRecords s [] = s := rfl

theorem updateLiveRecords_cons (s : List StoreRec) (r : StoreRec) (P : List StoreRec) :
    updateLiveRecords s (r :: P) = updateLiveRecords (upsertRecord s r) P := rfl

/-- Decomposition of a patch fold over a non-empty store: the head record of
the store absorbs (by shallow merge, in order) every patch record carrying
its id, and the tail of the store processes the rest of the patch. -/
theorem updateLiveRecords_cons_store : ∀ (P : List StoreRec) (h : StoreRec)
    (t : List StoreRec),
    updateLiveRecords (h :: t) P =
      ((P.filter (fun r => r.rid = h.rid)).foldl mergeRec h) ::
        updateLiveRecords t (P.filter (fun r => ¬ r.rid = h.rid))
  | [], h, t => rfl
  | r :: T, h, t => by
    by_cases hr : h.rid = r.rid
    · rw [updateLiveRecords_cons, upsertRecord_cons_hit h t r hr]
      rw [updateLiveRecords_cons_store T (mergeRec h r) t]
      have hmr : (mergeRec h r).rid = h.rid := hr ▸ rfl
      rw [hmr]
      have hrr : r.rid = h.rid := hr.symm
      rw [List.filter_cons_of_pos (by simpa using hrr),
        List.filter_cons_of_neg (by simpa using hrr)]
      rw [List.foldl_cons]
    · rw [updateLiveRecords_cons, upsertRecord_cons_miss h t r hr]
      rw [updateLiveRecords_cons_store T h (upsertRecord t r)]
      have hrr : ¬ r.rid = h.rid := fun hk => hr hk.symm
      rw [List.filter_cons_of_neg (by simpa using hrr),
        List.filter_cons_of_pos (by simpa using hrr)]
      rw [updateLiveRecords_cons]

theorem wfStore_filter {s : List StoreRec} (p : StoreRec → Bool) (h : WfStore s) :
    WfStore (s.filter p) :=
  fun r hr => h r (List.mem_of_mem_filter hr)

theorem fieldsConcat_filtered_rid (P : List StoreRec) (i : Int) :
    ∀ r ∈ P.filter (fun r => r.rid = i), r.rid = i := by
  intro r hr
  have := List.of_mem_filter hr
  simpa using this

/-- A head record that has already absorbed a run of same-id patch records
absorbs the same run again without change. -/
theorem foldl_mergeRec_idem {h : StoreRec} (L : List StoreRec)
    (hnd : (keysOf h.fields).Nodup) (hids : ∀ r ∈ L, r.rid = h.rid) :
    L.foldl mergeRec (L.foldl mergeRec h) = L.foldl mergeRec h := by
  refine storeRecExt ?_ ?_
  · have h1 : (L.foldl mergeRec h).rid = h.rid :=
      foldl_mergeRec_rid L h h.rid hids rfl
    rw [foldl_mergeRec_rid L (L.foldl mergeRec h) h.rid hids h1, h1]
  · rw [foldl_mergeRec_fields, foldl_mergeRec_fields, objMerge_idem _ hnd]

/-- Replaying `r` and its same-id successors over a store record built from
them changes nothing. -/
theorem foldl_mergeRec_replay {r : StoreRec} (L : List StoreRec)
    (hnd : (keysOf r.fields).Nodup) (hids : ∀ x ∈ L, x.rid = r.rid) :
    L.foldl mergeRec (mergeRec (L.foldl mergeRec r) r) = L.foldl mergeRec r := by
  refine storeRecExt ?_ ?_
  · have h1 : (L.foldl mergeRec r).rid = r.rid :=
      foldl_mergeRec_rid L r r.rid hids rfl
    have h2 : (mergeRec (L.foldl mergeRec r) r).rid = r.rid := rfl
    rw [foldl_mergeRec_rid L _ r.rid hids h2, h1]
  · rw [foldl_mergeRec_fields, foldl_mergeRec_fields]
    show objMerge (mergeRec (L.foldl mergeRec r) r).fields _ = _
    have : (mergeRec (L.foldl mergeRec r) r).fields
        = objMerge (objMerge r.fields (fieldsConcat L)) r.fields := by
      show objMerge (L.foldl mergeRec r).fields r.fields = _
      rw [foldl_mergeRec_fields]
    rw [this, ← objMerge_append, ← objMerge_append, ← List.append_assoc]
    exact objMerge_self_absorb (fieldsConcat L) hnd

/-- Applying a patch to the empty store and then re-applying the same patch
changes nothing. -/
theorem updateLiveRecords_idem_nil : ∀ (n : ℕ) (P : List StoreRec),
    P.length ≤ n → WfStore P →
    updateLiveRecords (updateLiveRecords [] P) P = updateLiveRecords [] P
  | _, [], _, _ => rfl
  | 0, r :: T, hlen, _ => by simp at hlen
  | Nat.succ n, r :: T, hlen, hwf => by
    have hwr : (keysOf r.fields).Nodup := hwf r (List.mem_cons_self r T)
    set Tyes := T.filter (fun x => x.rid = r.rid) with hTyes
    set Tno := T.filter (fun x => ¬ x.rid = r.rid) with hTno
    set H := Tyes.foldl mergeRec r with hH
    have hidsTyes : ∀ x ∈ Tyes, x.rid = r.rid := by
      intro x hx
      have := List.of_mem_filter hx
      simpa using this
    have hHrid : H.rid = r.rid := by
      rw [hH]
      exact foldl_mergeRec_rid Tyes r r.rid hidsTyes rfl
    have hB : updateLiveRecords [] (r :: T) = H :: updateLiveRecords [] Tno := by
      rw [updateLiveRecords_cons, upsertRecord_nil,
        updateLiveRecords_cons_store T r [], ← hTyes, ← hTno, ← hH]
    rw [hB, updateLiveRecords_cons, upsertRecord_cons_hit _ _ _ hHrid,
      updateLiveRecords_cons_store T (mergeRec H r) (updateLiveRecords [] Tno)]
    have hmrid : (mergeRec H r).rid = r.rid := rfl
    rw [hmrid, ← hTyes, ← hTno]
    have hhead : Tyes.foldl mergeRec (mergeRec H r) = H := by
      rw [hH]
      exact foldl_mergeRec_replay Tyes hwr hidsTyes
    rw [hhead]
    have htail : updateLiveRecords (updateLiveRecords [] Tno) Tno
        = updateLiveRecords [] Tno := by
      refine updateLiveRecords_idem_nil n Tno ?_ ?_
      · calc Tno.length ≤ T.length := List.length_filter_le _ T
          _ ≤ n := Nat.le_of_succ_le_succ hlen
      · intro x hx
        exact hwf x (List.mem_cons_of_mem r (List.mem_of_mem_filter hx))
    rw [htail]

/-- Re-applying an identical patch to any well-formed store is a no-op. -/
theorem updateLiveRecords_idem : ∀ (s P : List StoreRec), WfStore s → WfStore P →
    updateLiveRecords (updateLiveRecords s P) P = updateLiveRecords s P
  | [], P, _, hP => updateLiveRecords_idem_nil P.length P le_rfl hP
  | h :: t, P, hs, hP => by
    set Pyes := P.filter (fun x => x.rid = h.rid) with hPyes
    set Pno := P.filter (fun x => ¬ x.rid = h.rid) with hPno
    set H1 := Pyes.foldl mergeRec h with hH1
    have hids : ∀ x ∈ Pyes, x.rid = h.rid := by
      intro x hx
      have := List.of_mem_filter hx
      simpa using this
    have hH1rid : H1.rid = h.rid := by
      rw [hH1]
      exact foldl_mergeRec_rid Pyes h h.rid hids rfl
    have hB : updateLiveRecords (h :: t) P = H1 :: updateLiveRecords t Pno := by
      rw [updateLiveRecords_cons_store P h t, ← hPyes, ← hPno, ← hH1]
    rw [hB, updateLiveRecords_cons_store P H1 (updateLiveRecords t Pno), hH1rid,
      ← hPyes, ← hPno]
    have hhead : Pyes.foldl mergeRec H1 = H1 := by
      rw [hH1]
      exact foldl_mergeRec_idem Pyes (hs h (List.mem_cons_self h t)) hids
    have htail : updateLiveRecords (updateLiveRecords t Pno) Pno
        = updateLiveRecords t Pno :=
      updateLiveRecords_idem t Pno
        (fun x hx => hs x (List.mem_cons_of_mem h hx))
        (fun x hx => hP x (List.mem_of_mem_filter hx))
    rw [hhead, htail]

theorem findRec_nil (i : Int) : findRec [] i = none := rfl

theorem findRec_cons (h : StoreRec) (t : List StoreRec) (i : Int) :
    findRec (h :: t) i = if h.rid = i then some h else findRec t i := by
  by_cases hh : h.rid = i <;> simp [findRec, List.find?_cons, hh]

theorem sids_nil : sids [] = [] := rfl

theorem sids_cons (h : StoreRec) (t : List StoreRec) :
    sids (h :: t) = h.rid :: sids t := rfl

theorem sids_append (a b : List StoreRec) : sids (a ++ b) = sids a ++ sids b := by
  simp [sids]

theorem findRec_eq_none_iff (s : List StoreRec) (i : Int) :
    findRec s i = none ↔ i ∉ sids s := by
  induction s with
  | nil => simp [findRec_nil, sids_nil]
  | cons h t ih =>
    rw [findRec_cons, sids_cons]
    by_cases hh : h.rid = i
    · simp [hh]
    · simp only [if_neg hh, ih, List.mem_cons]
      constructor
      · intro h1
        rintro (h2 | h2)
        · exact hh h2.symm
        · exact h1 h2
      · intro h1 h2
        exact h1 (Or.inr h2)

/-- When the incoming record's id is absent, the upsert appends it as-is. -/
theorem upsertRecord_of_findRec_none : ∀ {s : List StoreRec} {r : StoreRec},
    findRec s r.rid = none → upsertRecord s r = s ++ [r]
  | [], r, _ => rfl
  | h :: t, r, hf => by
    rw [findRec_cons] at hf
    by_cases hh : h.rid = r.rid
    · rw [if_pos hh] at hf
      exact absurd hf (by simp)
    · rw [if_neg hh] at hf
      rw [upsertRecord_cons_miss h t r hh, upsertRecord_of_findRec_none hf,
        List.cons_append]

/-- When the incoming record's id is present, the store's record for that id
becomes the shallow merge of the existing record with the incoming one. -/
theorem findRec_upsertRecord_some : ∀ {s : List StoreRec} {r e : StoreRec},
    findRec s r.rid = some e →
    findRec (upsertRecord s r) r.rid = some (mergeRec e r)
  | [], r, e, hf => by simp [findRec_nil] at hf
  | h :: t, r, e, hf => by
    rw [findRec_cons] at hf
    by_cases hh : h.rid = r.rid
    · rw [if_pos hh] at hf
      have he : h = e := by injection hf
      rw [upsertRecord_cons_hit h t r hh, findRec_cons, if_pos (show (mergeRec h r).rid = r.rid from rfl), he]
    · rw [if_neg hh] at hf
      rw [upsertRecord_cons_miss h t r hh, findRec_cons, if_neg hh]
      exact findRec_upsertRecord_some hf

theorem sids_upsertRecord_of_found : ∀ {s : List StoreRec} {r e : StoreRec},
    findRec s r.rid = some e → sids (upsertRecord s r) = sids s
  | [], r, e, hf => by simp [findRec_nil] at hf
  | h :: t, r, e, hf => by
    rw [findRec_cons] at hf
    by_cases hh : h.rid = r.rid
    · rw [upsertRecord_cons_hit h t r hh, sids_cons, sids_cons,
        show (mergeRec h r).rid = r.rid from rfl, hh]
    · rw [if_neg hh] at hf
      rw [upsertRecord_cons_miss h t r hh, sids_cons, sids_cons,
        sids_upsertRecord_of_found hf]

theorem sids_upsertRecord_of_not_found {s : List StoreRec} {r : StoreRec}
    (hf : findRec s r.rid = none) :
    sids (upsertRecord s r) = sids s ++ [r.rid] := by
  rw [upsertRecord_of_findRec_none hf, sids_append, sids_cons, sids_nil]

/-- A single upsert only ever extends the id sequence at the end. -/
theorem sids_upsertRecord_ext (s : List StoreRec) (r : StoreRec) :
    ∃ ext, sids (upsertRecord s r) = sids s ++ ext := by
  cases hf : findRec s r.rid with
  | none => exact ⟨[r.rid], sids_upsertRecord_of_not_found hf⟩
  | some e => exact ⟨[], by rw [sids_upsertRecord_of_found hf, List.append_nil]⟩

/-- A whole patch only ever extends the id sequence at the end. -/
theorem sids_updateLiveRecords_ext : ∀ (P s : List StoreRec),
    ∃ ext, sids (updateLiveRecords s P) = sids s ++ ext
  | [], s => ⟨[], by rw [updateLiveRecords_nil, List.append_nil]⟩
  | r :: T, s => by
    obtain ⟨e1, he1⟩ := sids_upsertRecord_ext s r
    obtain ⟨e2, he2⟩ := sids_updateLiveRecords_ext T (upsertRecord s r)
    exact ⟨e1 ++ e2, by rw [updateLiveRecords_cons, he2, he1, List.append_assoc]⟩

theorem nodup_sids_upsertRecord {s : List StoreRec} (r : StoreRec)
    (h : (sids s).Nodup) : (sids (upsertRecord s r)).Nodup := by
  cases hf : findRec s r.rid with
  | none =>
    rw [sids_upsertRecord_of_not_found hf, List.nodup_append]
    refine ⟨h, List.nodup_singleton _, ?_⟩
    intro a ha hb
    rw [List.mem_singleton] at hb
    exact ((findRec_eq_none_iff s r.rid).1 hf) (hb ▸ ha)
  | some e => rwa [sids_upsertRecord_of_found hf]

/-- Patch application preserves uniqueness of ids in the store. -/
theorem nodup_sids_updateLiveRecords : ∀ (P s : List StoreRec),
    (sids s).Nodup → (sids (updateLiveRecords s P)).Nodup
  | [], s, h => h
  | r :: T, s, h => by
    rw [updateLiveRecords_cons]
    exact nodup_sids_updateLiveRecords T (upsertRecord s r) (nodup_sids_upsertRecord r h)

theorem endTs_processLiveStreamData (acc : IngestAcc) (d : StreamPayload) :
    (processLiveStreamData acc d).endTs = acc.endTs := by
  obtain ⟨ls, lh, lb⟩ := d
  cases ls <;> cases lh <;> cases lb <;> rfl

theorem endTs_processEventLine (jp : String → Option StreamPayload)
    (acc : IngestAcc) (line : String) :
    (processEventLine jp acc line).endTs
      = if isSentinel line then sentinelVal line else acc.endTs := by
  rw [processEventLine, isSentinel]
  by_cases h1 : jsIsEmpty (jsTrim line)
  · simp [h1]
  · by_cases h2 : jsIsEmpty (jsTrim (effData line))
    · simp [h1, h2]
    · by_cases h3 : jsStartsWith (effData line) "END "
      · simp [h1, h2, h3, sentinelVal]
      · rw [if_neg h1, if_neg h2, if_neg h3, if_neg (by simp [h3])]
        cases hj : jp (effData line) with
        | none => simp [hj]
        | some d => simp [hj, endTs_processLiveStreamData]

theorem endTs_ingest_foldl (jp : String → Option StreamPayload) :
    ∀ (frames : List String) (acc : IngestAcc),
    (frames.foldl (processEventLine jp) acc).endTs
      = ((frames.reverse.find? isSentinel).map sentinelVal).getD acc.endTs
  | [], acc => rfl
  | l :: T, acc => by
    rw [List.foldl_cons, endTs_ingest_foldl jp T (processEventLine jp acc l),
      List.reverse_cons, List.find?_append]
    cases hf : T.reverse.find? isSentinel with
    | some x => simp [Option.or]
    | none =>
      by_cases hl : isSentinel l
      · simp [Option.or, List.find?, hl, endTs_processEventLine]
      · simp [Option.or, List.find?, hl, endTs_processEventLine]

theorem endTs_ingestAccOf (jp : String → Option StreamPayload)
    (frames : List String) :
    (ingestAccOf jp frames).endTs
      = ((frames.reverse.find? isSentinel).map sentinelVal).getD none := by
  rw [ingestAccOf, endTs_ingest_foldl]

theorem lastVal_eq_none_of_not_mem : ∀ {o : Obj} {k : String}, k ∉ keysOf o →
    lastVal o k = none
  | [], _, _ => rfl
  | (k0, v0) :: t, k, h => by
    rw [keysOf_cons, List.mem_cons] at h
    have h1 : ¬ k = k0 := fun hk => h (Or.inl hk)
    have h2 : k ∉ keysOf t := fun hk => h (Or.inr hk)
    have h0 : ¬ k0 = k := fun hk => h1 hk.symm
    rw [lastVal_cons, lastVal_eq_none_of_not_mem h2, if_neg h0]

/-- C1: for every patch applied through `updateLiveHeaders` / `updateLiveBets`
and every record the patch loop processes against the store it sees: when no
record with the incoming id exists the record is appended as-is, and when one
exists the store's record for that id becomes the existing record with
exactly the fields present in the incoming record overwritten and every other
field unchanged; both patch entry points are the fold of this per-record
upsert. -/
theorem c1_upsert_shallow_merge (s : List StoreRec) (r : StoreRec)
    (hnd : (keysOf r.fields).Nodup) :
    (findRec s r.rid = none → upsertRecord s r = s ++ [r]) ∧
    (∀ e, findRec s r.rid = some e →
      findRec (upsertRecord s r) r.rid = some (mergeRec e r) ∧
      (∀ k, k ∈ keysOf r.fields →
        getField (mergeRec e r).fields k = getField r.fields k) ∧
      (∀ k, k ∉ keysOf r.fields →
        getField (mergeRec e r).fields k = getField e.fields k)) ∧
    (∀ (ld : LiveDataS) (patch : List StoreRec),
      (updateLiveHeaders ld patch).headers = patch.foldl upsertRecord ld.headers ∧
      (updateLiveBets ld patch).bets = patch.foldl upsertRecord ld.bets) := by
  refine ⟨upsertRecord_of_findRec_none, ?_, fun ld patch => ⟨rfl, rfl⟩⟩
  intro e he
  refine ⟨findRec_upsertRecord_some he, ?_, ?_⟩
  · intro k hk
    show getField (objMerge e.fields r.fields) k = _
    rw [getField_objMerge, lastVal_eq_getField_of_nodup hnd]
    rcases hg : getField r.fields k with _ | v
    · exact absurd ((mem_keysOf_iff_getField _ k).1 hk) (by simp [hg])
    · rfl
  · intro k hk
    show getField (objMerge e.fields r.fields) k = _
    rw [getField_objMerge, lastVal_eq_none_of_not_mem hk]
    rfl

theorem c1_upsert_shallow_merge_witness :
    findRec (upsertRecord c1s c1r) c1r.rid
      = some (mergeRec ⟨1, [("a", Val.vnum 1), ("b", Val.vnum 5)]⟩ c1r) :=
  (((c1_upsert_shallow_merge c1s c1r (by decide)).2.1)
    ⟨1, [("a", Val.vnum 1), ("b", Val.vnum 5)]⟩ (by decide)).1

/-- C2 counterexample: the bulk ingestion (`processLiveStreamData` inside
`initializeLiveEvents`) merely concatenates incoming header arrays, so a
snapshot whose frames repeat an id resolves with two records carrying the
same id — the store does NOT hold at most one record per id after initial
bulk-snapshot ingestion. -/
theorem c2_ingest_duplicate_ids_counterexample :
    initLiveEvents jpDup "football" ["F1", "END 7"] = Except.ok dupLiveData ∧
    sids dupLiveData.headers = [1, 1] ∧
    ¬ (sids dupLiveData.headers).Nodup := by
  refine ⟨by decide, by decide, by decide⟩

/-- C2 amended: incremental patch application (`updateLiveHeaders` /
`updateLiveBets`) preserves uniqueness of ids, so uniqueness holds at all
times provided the initial accumulated snapshot had unique ids; the initial
bulk ingestion itself only concatenates and cannot create uniqueness. -/
theorem c2_patch_uniqueness_preserved (ld : LiveDataS) (P : List StoreRec)
    (hh : (sids ld.headers).Nodup) (hb : (sids ld.bets).Nodup) :
    (sids (updateLiveHeaders ld P).headers).Nodup ∧
    (sids (updateLiveBets ld P).bets).Nodup :=
  ⟨nodup_sids_updateLiveRecords P ld.headers hh,
   nodup_sids_updateLiveRecords P ld.bets hb⟩

theorem c2_patch_uniqueness_preserved_witness :
    (sids (updateLiveHeaders ⟨[], [dupHeaderA], [], 7, "football"⟩ [dupHeaderB]).headers).Nodup ∧
    (sids (updateLiveBets ⟨[], [dupHeaderA], [], 7, "football"⟩ [dupHeaderB]).bets).Nodup :=
  c2_patch_uniqueness_preserved ⟨[], [dupHeaderA], [], 7, "football"⟩ [dupHeaderB]
    (by decide) (by decide)

/-- C3 counterexample: `END 0` is a well-formed sentinel frame whose numeric
value is `0`, yet the bulk fetch rejects with the IncompleteSnapshot error,
because the source tests the timestamp for JS truthiness (`if (endTimestamp)`)
and `0` is falsy. -/
theorem c3_end_zero_counterexample :
    isSentinel "END 0" = true ∧
    sentinelVal "END 0" = some 0 ∧
    initLiveEvents (fun _ => none) "football" ["END 0"]
      = Except.error "No END timestamp received from live events stream" := by
  refine ⟨by decide, by decide, by decide⟩

/-- C3 amended: when the last sentinel frame of the bulk feed parses to a
NONZERO integer `t`, the fetch resolves with the accumulated snapshot and
watermark `t`; when no sentinel frame occurs at all, the fetch rejects with
the IncompleteSnapshot error `"No END timestamp received..."`. -/
theorem c3_sentinel_watermark (jp : String → Option StreamPayload)
    (sport : String) (frames : List String) :
    (∀ l t, frames.reverse.find? isSentinel = some l → sentinelVal l = some t →
      t ≠ 0 →
      initLiveEvents jp sport frames = Except.ok
        { sports := (ingestAccOf jp frames).liveSports,
          headers := (ingestAccOf jp frames).liveHeaders,
          bets := (ingestAccOf jp frames).liveBets,
          lastTimestamp := t, sport := sport }) ∧
    (frames.reverse.find? isSentinel = none →
      initLiveEvents jp sport frames
        = Except.error "No END timestamp received from live events stream") := by
  constructor
  · intro l t hfind hval ht
    have hend : (ingestAccOf jp frames).endTs = some t := by
      rw [endTs_ingestAccOf, hfind]
      simp [hval]
    rw [initLiveEvents]
    simp only [hend]
    rw [if_neg ht]
  · intro hfind
    have hend : (ingestAccOf jp frames).endTs = none := by
      rw [endTs_ingestAccOf, hfind]
      rfl
    rw [initLiveEvents]
    simp only [hend]

theorem c3_sentinel_watermark_witness :
    initLiveEvents jpDup "football" ["F1", "END 7"] = Except.ok
      { sports := (ingestAccOf jpDup ["F1", "END 7"]).liveSports,
        headers := (ingestAccOf jpDup ["F1", "END 7"]).liveHeaders,
        bets := (ingestAccOf jpDup ["F1", "END 7"]).liveBets,
        lastTimestamp := 7, sport := "football" } :=
  (c3_sentinel_watermark jpDup "football" ["F1", "END 7"]).1 "END 7" 7
    (by decide) (by decide) (by decide)

/-- C9: applying an identical patch twice in succession — through the header
entry point or the odds entry point — yields a store state equal to applying
it once.  The stores and patch are quantified over all states whose records
are genuine JavaScript objects (no duplicate field keys). -/
theorem c9_patch_idempotent (ld : LiveDataS) (P : List StoreRec)
    (hh : WfStore ld.headers) (hb : WfStore ld.bets) (hP : WfStore P) :
    updateLiveHeaders (updateLiveHeaders ld P) P = updateLiveHeaders ld P ∧
    updateLiveBets (updateLiveBets ld P) P = updateLiveBets ld P := by
  constructor
  · show ({ ld with headers := updateLiveRecords (updateLiveRecords ld.headers P) P }
      : LiveDataS) = _
    rw [updateLiveRecords_idem ld.headers P hh hP]
    rfl
  · show ({ ld with bets := updateLiveRecords (updateLiveRecords ld.bets P) P }
      : LiveDataS) = _
    rw [updateLiveRecords_idem ld.bets P hb hP]
    rfl

theorem c9_patch_idempotent_witness :
    updateLiveHeaders (updateLiveHeaders dupLiveData [c1r]) [c1r]
      = updateLiveHeaders dupLiveData [c1r] ∧
    updateLiveBets (updateLiveBets dupLiveData [c1r]) [c1r]
      = updateLiveBets dupLiveData [c1r] :=
  c9_patch_idempotent dupLiveData [c1r] (by decide) (by decide) (by decide)

/-- C10: patch application never reorders the store — the sequence of ids
already present is preserved verbatim as a prefix (records with known ids are
updated in place, records with new ids are appended at the end). -/
theorem c10_patch_preserves_order (s P : List StoreRec) :
    (∃ ext, sids (updateLiveRecords s P) = sids s ++ ext) ∧
    (sids (updateLiveRecords s P)).take s.length = sids s := by
  obtain ⟨ext, hext⟩ := sids_updateLiveRecords_ext P s
  refine ⟨⟨ext, hext⟩, ?_⟩
  rw [hext, show s.length = (sids s).length from (List.length_map _ _).symm]
  exact List.take_left _ _

theorem loopRun_nil (s : LoopState) : loopRun s [] = s := rfl

theorem loopRun_cons (s : LoopState) (e : LoopEvent) (tr : List LoopEvent) :
    loopRun s (e :: tr) = loopRun (loopStep s e) tr := rfl

/-- Once `shouldStream` is cleared, no loop event sets it again (only
`startLiveSubscription`, which is not a loop event, ever sets it). -/
theorem loopStep_shouldStream_stays_false (s : LoopState) (e : LoopEvent)
    (h : s.shouldStream = false) : (loopStep s e).shouldStream = false := by
  cases e with
  | streamEnded => exact h
  | streamErrored => exact h
  | fireTimer k =>
    rw [loopStep]
    by_cases hk : k ∈ s.pending
    · rw [if_pos hk]
      cases k <;> simp [h]
    · rwa [if_neg hk]
  | stopCalled => rfl

/-- With `shouldStream` cleared, no loop event makes a connection attempt. -/
theorem loopStep_attempts_stay (s : LoopState) (e : LoopEvent)
    (h : s.shouldStream = false) : (loopStep s e).attempts = s.attempts := by
  cases e with
  | streamEnded => rfl
  | streamErrored => rfl
  | fireTimer k =>
    rw [loopStep]
    by_cases hk : k ∈ s.pending
    · rw [if_pos hk]
      cases k <;> simp [h]
    · rw [if_neg hk]
  | stopCalled => rfl

theorem loopRun_attempts_stay : ∀ (tr : List LoopEvent) (s : LoopState),
    s.shouldStream = false → (loopRun s tr).attempts = s.attempts
  | [], s, _ => rfl
  | e :: tr, s, h => by
    rw [loopRun_cons, loopRun_attempts_stay tr (loopStep s e)
      (loopStep_shouldStream_stays_false s e h), loopStep_attempts_stay s e h]

/-- C4: in the reconnect state machine, a stream that ends without error
schedules the short backoff timer, and that timer firing while streaming is
still desired (`shouldStream` true) performs exactly one new connection
attempt; and once `stopLiveSubscription` has run, every later sequence of
loop events — in particular any pending backoff timer firing — performs zero
connection attempts, because stop clears the persistent `shouldStream` flag
and both backoff callbacks check it. -/
theorem c4_reconnect_and_stop (s : LoopState) (tr : List LoopEvent) :
    TimerKind.endBackoff ∈ (loopStep s LoopEvent.streamEnded).pending ∧
    (s.shouldStream = true →
      (loopStep (loopStep s LoopEvent.streamEnded)
          (LoopEvent.fireTimer TimerKind.endBackoff)).attempts = s.attempts + 1 ∧
      (loopStep (loopStep s LoopEvent.streamEnded)
          (LoopEvent.fireTimer TimerKind.endBackoff)).streamingFlag = true) ∧
    (loopRun (loopStep s LoopEvent.stopCalled) tr).attempts = s.attempts := by
  refine ⟨by simp [loopStep], ?_, ?_⟩
  · intro h
    constructor
    · simp [loopStep, h]
    · simp [loopStep, h]
  · exact loopRun_attempts_stay tr (loopStep s LoopEvent.stopCalled) rfl

theorem c4_reconnect_and_stop_witness :
    (loopStep (loopStep ⟨true, true, [], 0⟩ LoopEvent.streamEnded)
        (LoopEvent.fireTimer TimerKind.endBackoff)).attempts = 0 + 1 ∧
    (loopRun (loopStep ⟨true, true, [], 0⟩ LoopEvent.stopCalled)
        [LoopEvent.fireTimer TimerKind.endBackoff]).attempts = 0 :=
  ⟨((c4_reconnect_and_stop ⟨true, true, [], 0⟩ []).2.1 rfl).1,
   (c4_reconnect_and_stop ⟨true, true, [], 0⟩
      [LoopEvent.fireTimer TimerKind.endBackoff]).2.2⟩

/-- C6 counterexample: on the `getEnhancedBettingDataForMatch` live
enrichment entry point (which runs through
`SportMappingService.enhanceBetData`), an outcome whose pick key has no
dictionary entry is labelled `"Unknown bet"` with the raw outcome key as
caption — not `"Unknown Description"` / `"N/A"` as the claim states for
every entry point. -/
theorem c6_fallback_counterexample :
    (getEnhancedBettingDataForMatch (some ⟨[], []⟩) 5 [c6bet] [c6header]).map
        (fun b => b.odds.map (fun o => (o.description, o.caption)))
      = [[("Unknown bet", "42")]] ∧
    ("Unknown bet", "42") ≠ ("Unknown Description", "N/A") := by
  refine ⟨by decide, by decide⟩

/-- C6 amended: an outcome whose pick key is absent from the dictionary never
fails on either live enrichment entry point, but the fallback text differs:
`getEnhancedBettingDataForMatchWithGroups` degrades to
`"Unknown Description"` / `"N/A"` while `enhanceBetData` (the
`getEnhancedBettingDataForMatch` path) degrades to `"Unknown bet"` with the
raw outcome key as caption. -/
theorem c6_missing_pick_fallback (picks : List EnhancedBetPickT)
    (bo : BettingOptionsT) (sportCode key : String) (odd : OmEntry)
    (hpick : picks.find? (fun p => p.key = key ++ "_" ++ sportCode) = none)
    (hmap : lookupStr bo.betPickMap (key ++ "_" ++ sportCode) = none) :
    enhanceOddWithGroups picks sportCode key odd
      = { key := key, odds := odd.ov, betPickCode := odd.bpc,
          description := "Unknown Description", caption := "N/A" } ∧
    (enhanceOddInfo bo sportCode key odd).description = "Unknown bet" ∧
    (enhanceOddInfo bo sportCode key odd).caption = key := by
  refine ⟨?_, ?_, ?_⟩
  · rw [enhanceOddWithGroups]
    simp only [hpick, Option.map_none]
    rfl
  · rw [enhanceOddInfo]
    simp only [hmap]
  · rw [enhanceOddInfo]
    simp only [hmap]

theorem c6_missing_pick_fallback_witness :
    enhanceOddWithGroups [] "S" "42" ⟨2, 7⟩
      = { key := "42", odds := 2, betPickCode := 7,
          description := "Unknown Description", caption := "N/A" } ∧
    (enhanceOddInfo ⟨[], []⟩ "S" "42" ⟨2, 7⟩).description = "Unknown bet" ∧
    (enhanceOddInfo ⟨[], []⟩ "S" "42" ⟨2, 7⟩).caption = "42" :=
  c6_missing_pick_fallback [] ⟨[], []⟩ "S" "42" ⟨2, 7⟩ (by decide) (by decide)

theorem mem_firstKeys : ∀ (l : List String) (k : String), k ∈ firstKeys l ↔ k ∈ l
  | [], k => by simp [firstKeys]
  | k0 :: t, k => by
    rw [firstKeys]
    by_cases hk : k = k0
    · subst hk
      simp
    · have hlt : (t.filter (fun x => x ≠ k0)).length < (k0 :: t).length :=
        Nat.lt_succ_of_le (List.length_filter_le _ t)
      rw [List.mem_cons, List.mem_cons]
      rw [mem_firstKeys (t.filter (fun x => x ≠ k0)) k]
      simp only [List.mem_filter, decide_eq_true_eq]
      constructor
      · rintro (h | ⟨h, _⟩)
        · exact Or.inl h
        · exact Or.inr h
      · rintro (h | h)
        · exact Or.inl h
        · exact Or.inr ⟨h, by simpa using hk⟩
termination_by l _ => l.length
decreasing_by
  simp only [List.length_cons]
  exact Nat.lt_succ_of_le (List.length_filter_le _ t)

theorem nodup_firstKeys : ∀ (l : List String), (firstKeys l).Nodup
  | [] => by rw [firstKeys]; exact List.nodup_nil
  | k0 :: t => by
    rw [firstKeys, List.nodup_cons]
    refine ⟨?_, nodup_firstKeys (t.filter (fun x => x ≠ k0))⟩
    rw [mem_firstKeys]
    simp
termination_by l => l.length
decreasing_by
  simp only [List.length_cons]
  exact Nat.lt_succ_of_le (List.length_filter_le _ t)

theorem firstKeys_append_single : ∀ (l : List String) (k' : String),
    firstKeys (l ++ [k'])
      = if k' ∈ l then firstKeys l else firstKeys l ++ [k']
  | [], k' => by simp [firstKeys]
  | k0 :: t, k' => by
    rw [List.cons_append, firstKeys]
    have hfil : (t ++ [k']).filter (fun x => x ≠ k0)
        = t.filter (fun x => x ≠ k0) ++ (if k' = k0 then [] else [k']) := by
      rw [List.filter_append]
      by_cases hk : k' = k0
      · simp [hk]
      · simp [hk]
    by_cases hk : k' = k0
    · subst hk
      rw [hfil, if_pos rfl, List.append_nil, if_pos (List.mem_cons_self _ _),
        firstKeys]
    · rw [hfil, if_neg hk]
      rw [firstKeys_append_single (t.filter (fun x => x ≠ k0)) k']
      by_cases hmem : k' ∈ t
      · rw [if_pos (by simp [List.mem_filter, hmem, hk]),
          if_pos (by simp [hmem]), firstKeys]
      · rw [if_neg (by simp [List.mem_filter, hmem]),
          if_neg (by simp [hmem, hk]), firstKeys, List.cons_append]
termination_by l _ => l.length
decreasing_by
  simp only [List.length_cons]
  exact Nat.lt_succ_of_le (List.length_filter_le _ t)

theorem appendOddToGroup_map (l : List String)
    (f : String → EnhancedPreGameBetT) (gk : String) (o : EnhancedOddT)
    (hnd : l.Nodup) :
    appendOddToGroup (l.map (fun k => (k, f k))) gk o
      = l.map (fun k =>
          (k, if k = gk then { f k with odds := (f k).odds ++ [o] } else f k)) := by
  induction l with
  | nil => rfl
  | cons k0 t ih =>
    rw [List.nodup_cons] at hnd
    rw [List.map_cons, List.map_cons, appendOddToGroup]
    by_cases hk : k0 = gk
    · rw [if_pos hk, if_pos hk]
      congr 1
      refine (List.map_congr_left ?_).symm
      intro k hkmem
      have : ¬ k = gk := fun hkk => hnd.1 (by rw [← hk] at hkk; exact hkk ▸ hkmem)
      rw [if_neg this]
    · rw [if_neg hk, if_neg hk, ih hnd.2]

theorem find?_map_keys_isSome (l : List String)
    (f : String → EnhancedPreGameBetT) (gk : String) :
    ((l.map (fun k => (k, f k))).find? (fun kv => kv.1 = gk)).isSome ↔ gk ∈ l := by
  rw [List.find?_isSome]
  constructor
  · rintro ⟨kv, hmem, hp⟩
    rw [List.mem_map] at hmem
    obtain ⟨k, hk, hkv⟩ := hmem
    have : kv.1 = gk := by simpa using hp
    rw [← hkv] at this
    exact this ▸ hk
  · intro h
    exact ⟨(gk, f gk), List.mem_map_of_mem _ h, by simp⟩

theorem buildPreGameRecord_append (matchId : Int)
    (picks : List EnhancedBetPickT) (sportCode : String) (gk : String)
    (e0 e : String × PreGameBetT) (rest : List (String × PreGameBetT)) :
    buildPreGameRecord matchId picks sportCode gk ((e0 :: rest) ++ [e])
      = { buildPreGameRecord matchId picks sportCode gk (e0 :: rest) with
          odds := (buildPreGameRecord matchId picks sportCode gk
            (e0 :: rest)).odds ++ [mkPreGameOdd picks sportCode e] } := by
  rw [List.cons_append, buildPreGameRecord, buildPreGameRecord]
  simp

/-- Processing one more raw entry advances the accumulator exactly by the
specification. -/
theorem pgStep_accSpec (matchId : Int) (picks : List EnhancedBetPickT)
    (sportCode : String) (done : List (String × PreGameBetT))
    (e : String × PreGameBetT) :
    pgStep matchId picks sportCode (pgAccSpec matchId picks sportCode done) e
      = pgAccSpec matchId picks sportCode (done ++ [e]) := by
  have hmapapp : (done ++ [e]).map (gkOfEntry picks sportCode)
      = done.map (gkOfEntry picks sportCode) ++ [gkOfEntry picks sportCode e] := by
    simp
  by_cases hmem : gkOfEntry picks sportCode e ∈ done.map (gkOfEntry picks sportCode)
  · have hfind : (((pgAccSpec matchId picks sportCode done).find?
        (fun kv => kv.1 = gkOfEntry picks sportCode e)).isSome) := by
      rw [pgAccSpec, find?_map_keys_isSome, mem_firstKeys]
      exact hmem
    rw [pgStep]
    simp only [hfind, if_true]
    rw [pgAccSpec, appendOddToGroup_map _ _ _ _ (nodup_firstKeys _),
      pgAccSpec, hmapapp, firstKeys_append_single, if_pos hmem]
    refine List.map_congr_left ?_
    intro k hk
    have hfil : (done ++ [e]).filter (fun x => gkOfEntry picks sportCode x = k)
        = done.filter (fun x => gkOfEntry picks sportCode x = k)
          ++ (if gkOfEntry picks sportCode e = k then [e] else []) := by
      rw [List.filter_append]
      by_cases h : gkOfEntry picks sportCode e = k <;> simp [h]
    by_cases hke : k = gkOfEntry picks sportCode e
    · rw [if_pos hke, hfil, if_pos hke.symm]
      have hne : done.filter (fun x => gkOfEntry picks sportCode x = k) ≠ [] := by
        rw [← hke] at hmem
        rw [List.mem_map] at hmem
        obtain ⟨x, hx, hgx⟩ := hmem
        exact List.ne_nil_of_mem (List.mem_filter.2 ⟨hx, by simp [hgx]⟩)
      rcases hcase : done.filter (fun x => gkOfEntry picks sportCode x = k) with
        _ | ⟨e0, rest⟩
      · exact absurd hcase hne
      · rw [buildPreGameRecord_append]
    · rw [if_neg hke, hfil,
        if_neg (fun hh => hke (hh : gkOfEntry picks sportCode e = k).symm),
        List.append_nil]
  · have hfind : ¬ (((pgAccSpec matchId picks sportCode done).find?
        (fun kv => kv.1 = gkOfEntry picks sportCode e)).isSome) := by
      rw [pgAccSpec, find?_map_keys_isSome, mem_firstKeys]
      exact hmem
    rw [pgStep]
    simp only [hfind, Bool.false_eq_true, if_false]
    rw [pgAccSpec, pgAccSpec, hmapapp, firstKeys_append_single, if_neg hmem,
      List.map_append]
    congr 1
    · refine List.map_congr_left ?_
      intro k hk
      rw [mem_firstKeys] at hk
      have hke : ¬ gkOfEntry picks sportCode e = k := fun hh => hmem (hh ▸ hk)
      have hfil : (done ++ [e]).filter (fun x => gkOfEntry picks sportCode x = k)
          = done.filter (fun x => gkOfEntry picks sportCode x = k) := by
        rw [List.filter_append]
        simp [hke]
      rw [hfil]
    · have hfil : (done ++ [e]).filter
          (fun x => gkOfEntry picks sportCode x = gkOfEntry picks sportCode e)
          = [e] := by
        rw [List.filter_append]
        have hnil : done.filter
            (fun x => gkOfEntry picks sportCode x = gkOfEntry picks sportCode e)
            = [] := by
          rw [List.filter_eq_nil_iff]
          intro a ha
          simp only [decide_eq_true_eq]
          intro hga
          exact hmem (hga ▸ List.mem_map_of_mem _ ha)
        rw [hnil]
        simp
      rw [List.map_singleton, hfil, buildPreGameRecord]
      simp [mkPreGameBet]

theorem pgFold_accSpec (matchId : Int) (picks : List EnhancedBetPickT)
    (sportCode : String) : ∀ (rest done : List (String × PreGameBetT)),
    rest.foldl (pgStep matchId picks sportCode)
        (pgAccSpec matchId picks sportCode done)
      = pgAccSpec matchId picks sportCode (done ++ rest)
  | [], done => by rw [List.foldl_nil, List.append_nil]
  | e :: rest, done => by
    rw [List.foldl_cons, pgStep_accSpec,
      pgFold_accSpec matchId picks sportCode rest (done ++ [e]),
      List.append_assoc, List.singleton_append]

theorem jsGroupIdTok_eq_opt (pick : Option EnhancedBetPickT) :
    jsGroupIdTok pick = jsGroupIdTokOpt (pick.map (fun p => p.groupId)) := by
  cases pick with
  | none => rfl
  | some p => cases hp : p.groupId <;> simp [jsGroupIdTok, jsGroupIdTokOpt, hp]

/-- C5 counterexample: two raw scheduled picks whose derived (group id,
total, handicap) triples DIFFER — `(null, "a_b", "c")` versus
`(null, "a", "b_c")` — are nevertheless merged into a single enriched record
with two outcome entries, because `_`-joining the placeholder-substituted
components makes both grouping keys the string `"ungrouped_a_b_c"`.  The
claim's 'a pick differing in any component of the triple starts a new
record' is therefore false. -/
theorem c5_collapse_counterexample :
    tripleOfEntry [] "S" cxE1 ≠ tripleOfEntry [] "S" cxE2 ∧
    gkOfEntry [] "S" cxE1 = gkOfEntry [] "S" cxE2 ∧
    (enhancePreGameBets 5 [] "S" [cxE1, cxE2]).length = 1 ∧
    (enhancePreGameBets 5 [] "S" [cxE1, cxE2]).map
        (fun b => b.odds.map (fun o => o.key)) = [["1", "2"]] := by
  refine ⟨by decide, by decide, by decide, by decide⟩

/-- C5 amended: merging of scheduled picks is governed by equality of the
derived grouping-key STRING (placeholder-substituted components joined with
`_`), not of the raw triple: the enrichment produces exactly one record per
distinct grouping key, in first-occurrence order, whose outcome list has one
entry per raw pick with that key (in order) and whose descriptive fields are
seeded from the first such pick; equal triples always yield equal keys, so
picks agreeing on the triple do collapse as the claim states, but certain
distinct triples collapse as well. -/
theorem c5_grouping_by_key (matchId : Int) (picks : List EnhancedBetPickT)
    (sportCode : String) (entries : List (String × PreGameBetT)) :
    enhancePreGameBets matchId picks sportCode entries
      = (firstKeys (entries.map (gkOfEntry picks sportCode))).map
          (fun k => buildPreGameRecord matchId picks sportCode k
            (entries.filter (fun e => gkOfEntry picks sportCode e = k))) ∧
    (∀ e1 e2, tripleOfEntry picks sportCode e1 = tripleOfEntry picks sportCode e2 →
      gkOfEntry picks sportCode e1 = gkOfEntry picks sportCode e2) := by
  constructor
  · rw [enhancePreGameBets]
    have h := pgFold_accSpec matchId picks sportCode entries []
    rw [show pgAccSpec matchId picks sportCode [] = [] by
        rw [pgAccSpec, List.map_nil, firstKeys, List.map_nil],
      List.nil_append] at h
    rw [h, pgAccSpec, List.map_map]
    rfl
  · intro e1 e2 h
    have h1 : (pgPickOf picks sportCode e1.1).map (fun p => p.groupId)
        = (pgPickOf picks sportCode e2.1).map (fun p => p.groupId) :=
      congrArg Prod.fst h
    have h2 : (extractSpecialValues e1.2.sv).1 = (extractSpecialValues e2.2.sv).1 := by
      have := congrArg Prod.snd h
      exact congrArg Prod.fst this
    have h3 : (extractSpecialValues e1.2.sv).2 = (extractSpecialValues e2.2.sv).2 := by
      have := congrArg Prod.snd h
      exact congrArg Prod.snd this
    rw [gkOfEntry, gkOfEntry, preGameGroupKey, preGameGroupKey,
      jsGroupIdTok_eq_opt, jsGroupIdTok_eq_opt, h1, h2, h3]

/-- C7 counterexample: `reset()` clears the orchestrator's initialization
state but never clears the snapshot held by the stream service, so the query
surface still reports the full live snapshot (headers, odds, watermark)
through `getLiveData()` after a reset — the claim's 'headers, odds, and
watermark are gone' is false. -/
theorem c7_reset_keeps_snapshot_counterexample :
    (reset c7State).initData = none ∧
    (reset c7State).initFlag = false ∧
    getLiveDataQ (reset c7State) = some c7LiveData ∧
    some c7LiveData ≠ (none : Option LiveDataS) := by
  refine ⟨by decide, by decide, by decide, by decide⟩

/-- C7 amended: `reset` stops the subscription exactly when the service
reports streaming, clears `initializedData` / `isInitialized`, leaves the
streaming flag false, is idempotent, and is a no-op when already
uninitialized and idle — but the live snapshot held by the stream service
survives and remains observable through `getLiveData()`. -/
theorem c7_reset_behavior (st : DsState) :
    (st.lss.streamingFlag = true → (reset st).lss = stopLiveSub st.lss) ∧
    (reset st).initData = none ∧
    (reset st).initFlag = false ∧
    (reset st).lss.streamingFlag = false ∧
    reset (reset st) = reset st ∧
    (st.initData = none → st.initFlag = false → st.lss.streamingFlag = false →
      reset st = st) ∧
    getLiveDataQ (reset st) = getLiveDataQ st := by
  obtain ⟨⟨sf, ss, ct, ld, ab⟩, sms, idata, iflag⟩ := st
  cases sf
  case false =>
    simp [reset, stopLiveSub, getLiveDataQ]
    intro h1 h2
    simp [h1, h2]
  case true =>
    simp [reset, stopLiveSub, getLiveDataQ]

theorem c7_reset_behavior_witness :
    (reset (reset c7State)) = reset c7State ∧
    getLiveDataQ (reset c7State) = getLiveDataQ c7State :=
  ⟨(c7_reset_behavior c7State).2.2.2.2.1,
   (c7_reset_behavior c7State).2.2.2.2.2.2⟩

/-- C8 counterexample: when the catalog fetch and the bulk live fetch
succeed but the subscription start then fails, `initialize` rethrows — yet
the stream service's snapshot has already been replaced, so the query
surface (`getLiveData()`) observes the NEW snapshot after the failed call:
previously committed state is not left untouched. -/
theorem c8_partial_commit_counterexample :
    (dsInit c7State ModeT.live "football" none c8Env).2
      = Except.error "boom" ∧
    getLiveDataQ (dsInit c7State ModeT.live "football" none c8Env).1
      = some c8NewLive ∧
    getLiveDataQ c7State = some c7LiveData ∧
    c8NewLive ≠ c7LiveData := by
  refine ⟨by decide, by decide, by decide, by decide⟩

/-- C8 amended: a failing `initialize` never commits `initializedData` /
`isInitialized` (and a catalog-fetch failure leaves the whole state
untouched), but side effects already applied to collaborator services —
rebuilt sport mappings, stored betting options, and in live mode the
replaced live snapshot and timestamp — persist and are observable. -/
theorem c8_no_commit_on_failure (st : DsState) (mode : ModeT) (sport : String)
    (interval : Option String) (env : InitEnv) (err : String)
    (h : (dsInit st mode sport interval env).2 = Except.error err) :
    (dsInit st mode sport interval env).1.initData = st.initData ∧
    (dsInit st mode sport interval env).1.initFlag = st.initFlag ∧
    (∀ e, env.catalog = Except.error e →
      (dsInit st mode sport interval env).1 = st) := by
  obtain ⟨cat, li, sub, pg⟩ := env
  cases cat with
  | error e => exact ⟨rfl, rfl, fun e' he' => rfl⟩
  | ok p =>
    obtain ⟨sports, bo⟩ := p
    cases mode with
    | live =>
      cases li with
      | error e => exact ⟨rfl, rfl, fun e' he' => Except.noConfusion he'⟩
      | ok d =>
        cases ht : tsTruthy (some d.lastTimestamp) with
        | false =>
          refine ⟨?_, ?_, fun e' he' => Except.noConfusion he'⟩ <;>
            simp [dsInit, startLiveSub, ht]
        | true =>
          cases hsf : st.lss.streamingFlag with
          | true =>
            exfalso
            simp [dsInit, startLiveSub, ht, hsf] at h
          | false =>
            cases sub with
            | error e =>
              refine ⟨?_, ?_, fun e' he' => Except.noConfusion he'⟩ <;>
                simp [dsInit, startLiveSub, ht, hsf]
            | ok u =>
              exfalso
              simp [dsInit, startLiveSub, ht, hsf] at h
    | pregame =>
      cases pg with
      | error e => exact ⟨rfl, rfl, fun e' he' => Except.noConfusion he'⟩
      | ok p' =>
        exfalso
        simp [dsInit] at h

theorem c8_no_commit_on_failure_witness :
    (dsInit c7State ModeT.live "football" none c8Env).1.initData
      = c7State.initData ∧
    (dsInit c7State ModeT.live "football" none c8Env).1.initFlag
      = c7State.initFlag ∧
    (∀ e, c8Env.catalog = Except.error e →
      (dsInit c7State ModeT.live "football" none c8Env).1 = c7State) :=
  c8_no_commit_on_failure c7State ModeT.live "football" none c8Env "boom"
    (by decide)
